import Mathlib

/-!
Verification of the semantic re-ranking subsystem of `taha-shahid1/invidly`.

The subsystem under study lives in two near-duplicate TypeScript files:

* variant A — the Redis-backed ranking engine (`rankSearchResults` with
  `useCache = true` by default, an external Redis embedding cache, and a
  batch cache-reconciliation algorithm in `getEmbeddingsBatch`);
* variant B — `src/backend/src/services/search/rank-results.ts` (an
  in-memory, parameter-passed query cache, `useCache = false` by default,
  and a direct batch provider call).

Modelling conventions, stated once here:

* JavaScript numbers are idealized as exact rationals extended with the
  IEEE-754 special values `NaN`, `+Infinity` and `-Infinity` (`JsNum`).
  `Math.sqrt` is idealized as a rational square-root operator (`jsSqrtQ`)
  that is exact on perfect squares, maps `0` to `0`, positives to
  positives and negatives to `NaN`; no claim below depends on the value of
  an irrational square root, only on its sign / NaN-ness.
* The external world (Redis and the OpenAI embedding endpoint) is an
  oracle `Env`.  Computations run in `M α := Env → Except JsError α ×
  List Eff`, where the `Eff` trace records every cache read, cache write
  and network call in program order (the source issues some of these
  through `Promise.all`; the trace lists them in the source's list
  order).  A thrown JS exception is `Except.error`.
* `redis.get` outcomes are `ReadOutcome`: `hit v` (a non-empty cached
  JSON string parsing to vector `v`), `miss` (Redis `null`, or an empty
  string which is falsy in JS), and `err` (a rejected command or a
  `JSON.parse` failure — both are absorbed by the `try`/`catch` in
  `getCachedEmbedding`).  `getRedisClient` itself throws
  `notConnected` when the client is not connected; in the source this
  call sits *outside* the `try` blocks.
* The SHA-256 digest in `generateEmbeddingCacheKey` is injective for all
  practical purposes and serves only as a key; it is modelled as the
  identity on the trimmed text (no claim concerns hash collisions).
* `Array.prototype.sort` (stable since ES2019) is modelled by `sortV8`,
  a stable insertion sort in which each element sinks from the right past
  exactly those elements `z` with `comparator z x > 0`, matching the
  insertion sort used by V8 on small arrays.  For a consistent comparator
  this is the unique stable sort; for an inconsistent comparator (which
  the source's `b.similarity - a.similarity` becomes when a similarity is
  `NaN`) ECMAScript leaves the order implementation-defined, and `sortV8`
  commits to the insertion-sort refinement.
-/

/-! ## JavaScript numbers -/

/-- A JavaScript number: an exact rational, or one of the IEEE-754
special values `NaN`, `+Infinity`, `-Infinity`. -/
inductive JsNum where
  | nan
  | posInf
  | negInf
  | num (q : ℚ)
deriving DecidableEq, Repr

namespace JsNum

/-- JS subtraction (`a - b`). -/
def sub : JsNum → JsNum → JsNum
  | nan, _ => nan
  | _, nan => nan
  | posInf, posInf => nan
  | posInf, _ => posInf
  | negInf, negInf => nan
  | negInf, _ => negInf
  | num _, posInf => negInf
  | num _, negInf => posInf
  | num p, num q => num (p - q)

/-- JS multiplication (`a * b`). -/
def mul : JsNum → JsNum → JsNum
  | nan, _ => nan
  | _, nan => nan
  | posInf, posInf => posInf
  | posInf, negInf => negInf
  | posInf, num q => if q = 0 then nan else if 0 < q then posInf else negInf
  | negInf, posInf => negInf
  | negInf, negInf => posInf
  | negInf, num q => if q = 0 then nan else if 0 < q then negInf else posInf
  | num q, posInf => if q = 0 then nan else if 0 < q then posInf else negInf
  | num q, negInf => if q = 0 then nan else if 0 < q then negInf else posInf
  | num p, num q => num (p * q)

/-- JS division (`a / b`); `0/0` is `NaN`, `x/0` is a signed infinity for
`x ≠ 0`, and a finite number divided by an infinity is `0`. -/
def div : JsNum → JsNum → JsNum
  | nan, _ => nan
  | _, nan => nan
  | posInf, posInf => nan
  | posInf, negInf => nan
  | negInf, posInf => nan
  | negInf, negInf => nan
  | posInf, num q => if 0 ≤ q then posInf else negInf
  | negInf, num q => if 0 ≤ q then negInf else posInf
  | num _, posInf => num 0
  | num _, negInf => num 0
  | num p, num q =>
      if q = 0 then
        if p = 0 then nan else if 0 < p then posInf else negInf
      else num (p / q)

/-- Is this JS number strictly positive?  (`NaN > 0` is `false`.) -/
def isPos : JsNum → Bool
  | nan => false
  | posInf => true
  | negInf => false
  | num q => decide (0 < q)

/-- JS `a <= b` as a boolean; every comparison with `NaN` is `false`. -/
def leB : JsNum → JsNum → Bool
  | nan, _ => false
  | _, nan => false
  | negInf, _ => true
  | posInf, posInf => true
  | posInf, _ => false
  | num _, posInf => true
  | num _, negInf => false
  | num p, num q => decide (p ≤ q)

end JsNum

/-- `Math.sqrt` on an (always finite) rational input: negative inputs give
`NaN`; otherwise a rational square root, exact on perfect squares. -/
def jsSqrtQ (q : ℚ) : JsNum :=
  if q < 0 then .nan else .num (Rat.sqrt q)

/-- An embedding vector: the entries delivered by the provider or parsed
from cached JSON are finite doubles, modelled as exact rationals. -/
abbrev Vec := List ℚ

/-- JS `text.trim()`: strip leading and trailing whitespace.  (Stated on
the character list so that it evaluates inside the kernel; `String.trim`
itself is defined by well-founded recursion.) -/
def jsTrim (s : String) : String :=
  ⟨((s.data.dropWhile Char.isWhitespace).reverse.dropWhile Char.isWhitespace).reverse⟩

/-- The emptiness test `!text || text.trim().length === 0`: it holds
exactly when every character of `text` is whitespace (vacuously for the
empty string). -/
def isBlank (text : String) : Bool := text.data.all fun c => c.isWhitespace

deriving instance DecidableEq for Except

/-! ## Data model

The `SearchResult` type declaration (`src/types/search`) is not part of
the sources.  Modelled from the spec: §6 gives the consumed shape
`{ title: string, snippet: string, pagemap?: { metatags?:
[{ "og:description"?: string, ... }] } }`, with the `pagemap` block and
its `metatags` list optional. -/

/-- Modelled from the spec: one entry of `pagemap.metatags`, carrying an
optional `og:description` string (§6). -/
structure Metatag where
  ogDescription : Option String
deriving DecidableEq, Repr

/-- Modelled from the spec: the optional structured-metadata block of a
search result (§6). -/
structure Pagemap where
  metatags : Option (List Metatag)
deriving DecidableEq, Repr

/-- Modelled from the spec: a search result as consumed by the ranking
engine (§6); `pagemap` is optional. -/
structure SearchResult where
  title : String
  snippet : String
  pagemap : Option Pagemap
deriving DecidableEq, Repr

/-- `interface RankedResult extends SearchResult { similarity: number }`. -/
structure RankedResult extends SearchResult where
  similarity : JsNum
deriving DecidableEq, Repr

/-! ## Errors, effects, environment -/

/-- The JS exceptions the modelled code can raise.  Each constructor
corresponds to one `throw new Error(...)` site (or a runtime `TypeError`),
plus `apiFailure` for a rejection coming from the OpenAI client itself. -/
inductive JsError where
  /-- `'Text cannot be empty for embedding'` -/
  | emptyText
  /-- `'No embedding returned from OpenAI API'` -/
  | noEmbedding
  /-- `'Missing embedding in batch response'` -/
  | missingBatchEmbedding
  /-- `'Vectors must have the same length'` -/
  | dimensionMismatch
  /-- `'Redis not connected. Call initRedis() first.'` -/
  | notConnected
  /-- a runtime `TypeError` (property access on `undefined`) -/
  | typeError
  /-- a rejection raised by the OpenAI client call itself -/
  | apiFailure (msg : String)
deriving DecidableEq, Repr

/-- One observable interaction with the outside world. -/
inductive Eff where
  /-- a `redis.get` with this cache key -/
  | cacheGet (key : String)
  /-- a `redis.setEx` attempt with this key and value (`none` models the
  source storing an `undefined` fresh embedding) -/
  | cacheSet (key : String) (value : Option Vec)
  /-- a single-text `openaiClient.embeddings.create` network call -/
  | apiEmbed (text : String)
  /-- a batched `openaiClient.embeddings.create` network call -/
  | apiEmbedBatch (texts : List String)
deriving DecidableEq, Repr

/-- Outcome of a `redis.get` for a given key. -/
inductive ReadOutcome where
  /-- the command rejected, or the stored string failed to parse -/
  | err
  /-- Redis `null` (or an empty — falsy — string) -/
  | miss
  /-- a cached JSON string parsing to `v` -/
  | hit (v : Vec)
deriving DecidableEq, Repr

/-- The external world: Redis connection state, per-key read behaviour,
and the embedding provider's response to single and batched calls.
`apiSingle` returns `response.data[0]?.embedding`; `apiBatch` returns the
`response.data` items, each with an optional `embedding`. -/
structure Env where
  connected : Bool
  read0 : String → ReadOutcome
  apiSingle : String → Except JsError (Option Vec)
  apiBatch : List String → Except JsError (List (Option Vec))

/-- The modelling monad: an environment-reading, effect-tracing,
exception-raising computation. -/
def M (α : Type) : Type := Env → Except JsError α × List Eff

namespace M

def pure' (a : α) : M α := fun _ => (.ok a, [])

def bind' (x : M α) (f : α → M β) : M β := fun env =>
  match x env with
  | (.ok a, t) =>
      let r := f a env
      (r.1, t ++ r.2)
  | (.error e, t) => (.error e, t)

instance : Monad M where
  pure := pure'
  bind := bind'

/-- Raise a JS exception. -/
def throwE (e : JsError) : M α := fun _ => (.error e, [])

/-- Run a pure `Except` computation (synchronous JS code that may throw). -/
def liftE (x : Except JsError α) : M α := fun _ => (x, [])

@[simp] theorem pure_run (a : α) (env : Env) :
    (Pure.pure (f := M) a) env = (.ok a, []) := rfl

@[simp] theorem bind_run (x : M α) (f : α → M β) (env : Env) :
    (Bind.bind (m := M) x f) env =
      match x env with
      | (.ok a, t) => ((f a env).1, t ++ (f a env).2)
      | (.error e, t) => (.error e, t) := rfl

@[simp] theorem throwE_run (e : JsError) (env : Env) :
    (throwE (α := α) e) env = (.error e, []) := rfl

@[simp] theorem liftE_run (x : Except JsError α) (env : Env) :
    (liftE x) env = (x, []) := rfl

end M

/-! ## Variant A: the Redis-backed ranking engine -/

def EMBEDDING_MODEL : String := "text-embedding-3-small"

/-- `embedding:${EMBEDDING_MODEL}:${hash}` where `hash` is the first 16 hex
characters of the SHA-256 of the trimmed text; the digest is modelled as
the identity on the trimmed text (see the header). -/
def generateEmbeddingCacheKey (text : String) : String :=
  "embedding:" ++ EMBEDDING_MODEL ++ ":" ++ (jsTrim text)

/-- The single `for` loop of `cosineSimilarity`, accumulating
`(dotProduct, normA, normB)`. -/
def cosLoop (a b : Vec) : ℚ × ℚ × ℚ :=
  (a.zip b).foldl
    (fun acc p => (acc.1 + p.1 * p.2, acc.2.1 + p.1 * p.1, acc.2.2 + p.2 * p.2))
    (0, 0, 0)

/-- `cosineSimilarity(a, b)`: throws `'Vectors must have the same length'`
on a length mismatch, otherwise returns
`dotProduct / (Math.sqrt(normA) * Math.sqrt(normB))`. -/
def cosineSimilarity (a b : Vec) : Except JsError JsNum :=
  if a.length ≠ b.length then .error .dimensionMismatch
  else
    .ok (JsNum.div (.num (cosLoop a b).1)
          (JsNum.mul (jsSqrtQ (cosLoop a b).2.1) (jsSqrtQ (cosLoop a b).2.2)))

/-- `extractTextContent(result)`.  The source reads
`result.pagemap.metatags` unconditionally, so an absent `pagemap` raises a
`TypeError`; when `metatags` is present and non-empty only its first entry
is consulted, and an empty `og:description` string is falsy, falling back
to the snippet. -/
def extractTextContent (result : SearchResult) : Except JsError String :=
  match result.pagemap with
  | none => .error .typeError
  | some pm =>
    match pm.metatags with
    | some (m0 :: _) =>
        let description :=
          match m0.ogDescription with
          | some s => if s = "" then result.snippet else s.take 800
          | none => result.snippet
        .ok ("Title: " ++ result.title ++ " Description: " ++ description)
    | _ => .ok ("Title: " ++ result.title ++ " Description: " ++ result.snippet)

/-- `getRedisClient()`: throws when the client is not connected. -/
def getRedisClient : M Unit := fun env =>
  if env.connected then (.ok (), []) else (.error .notConnected, [])

/-- The `redis.get` inside the `try` of `getCachedEmbedding`, with the
catch folded in: a rejected command or an unparsable value (`.err`)
produces the same `null` as a miss. -/
def redisGet (key : String) : M (Option Vec) := fun env =>
  (.ok (match env.read0 key with
        | .hit v => some v
        | _ => none),
   [.cacheGet key])

/-- The `redis.setEx` inside the `try` of `setCachedEmbedding`: the
attempt is traced, and any failure of the command is swallowed by the
catch, so the result is always `ok`. -/
def redisSetEx (key : String) (value : Option Vec) : M Unit := fun _ =>
  (.ok (), [.cacheSet key value])

/-- `getCachedEmbedding(text)`.  Note that `getRedisClient()` is called
*outside* the `try` block: a not-connected client throws out of this
function. -/
def getCachedEmbedding (text : String) : M (Option Vec) := do
  getRedisClient
  redisGet (generateEmbeddingCacheKey text)

/-- `setCachedEmbedding(text, embedding)`; again `getRedisClient()` sits
outside the `try`.  The `none` value models the source passing an
`undefined` fresh embedding through the non-null assertion. -/
def setCachedEmbedding (text : String) (embedding : Option Vec) : M Unit := do
  getRedisClient
  redisSetEx (generateEmbeddingCacheKey text) embedding

/-- The single-text `openaiClient.embeddings.create` call, returning
`response.data[0]?.embedding`; the network attempt is traced even when
the call rejects. -/
def apiCreateSingle (text : String) : M (Option Vec) := fun env =>
  (env.apiSingle text, [.apiEmbed text])

/-- The batched `openaiClient.embeddings.create` call, returning the
`response.data` items. -/
def apiCreateBatch (texts : List String) : M (List (Option Vec)) := fun env =>
  (env.apiBatch texts, [.apiEmbedBatch texts])

/-- `getEmbedding(text, useCache)`: empty-after-trim text throws
`'Text cannot be empty for embedding'` before any cache or network
interaction; a cache hit (any array, `[]` included, is truthy) returns
early; otherwise the provider is called, a missing `data[0]?.embedding`
throws, and the fresh vector is cached when caching is enabled.  The
surrounding `try`/`catch` only logs and rethrows. -/
def getEmbedding (text : String) (useCache : Bool) : M Vec :=
  if isBlank text then M.throwE .emptyText
  else do
    let cached ← if useCache then getCachedEmbedding text else pure none
    match cached with
    | some v => pure v
    | none => do
      let r ← apiCreateSingle text
      match r with
      | none => M.throwE .noEmbedding
      | some emb => do
        if useCache then setCachedEmbedding text (some emb) else pure ()
        pure emb

/-- The `response.data.map(...)` of `getBatchEmbeddingsFromAPI`: the map
throws `'Missing embedding in batch response'` at the first item without
an embedding. -/
def extractBatch : List (Option Vec) → Except JsError (List Vec)
  | [] => .ok []
  | none :: _ => .error .missingBatchEmbedding
  | some v :: rest => (extractBatch rest).map (v :: ·)

/-- `getBatchEmbeddingsFromAPI(texts)`: one batched provider call (no
input validation of any kind), then per-item embedding extraction.  The
`try`/`catch` only logs and rethrows. -/
def getBatchEmbeddingsFromAPI (texts : List String) : M (List Vec) := do
  let data ← apiCreateBatch texts
  M.liftE (extractBatch data)

/-- The `Promise.all(texts.map(text => getCachedEmbedding(text)))` of
`getEmbeddingsBatch`, traced in list order. -/
def readAllCache : List String → M (List (Option Vec))
  | [] => pure []
  | t :: ts => do
      let e ← getCachedEmbedding t
      let rest ← readAllCache ts
      pure (e :: rest)

/-- The `embeddings.forEach(...)` partition of `getEmbeddingsBatch`:
the `(index, texts[index])` pairs at which the cache produced `null`.
(`getD` never falls back to `""`: the two lists share a length.) -/
def missesOf (texts : List String) (embeddings : List (Option Vec)) :
    List (ℕ × String) :=
  embeddings.enum.filterMap fun p =>
    match p.2 with
    | some _ => none
    | none => some (p.1, texts.getD p.1 "")

/-- The `Promise.all(uncachedTexts.map((text, i) =>
setCachedEmbedding(text, freshEmbeddings[i]!)))` write-back, traced in
list order. -/
def writeFreshAux (fresh : List Vec) : List (ℕ × String) → M Unit
  | [] => pure ()
  | (i, t) :: rest => do
      setCachedEmbedding t (fresh.get? i)
      writeFreshAux fresh rest

def writeFresh (uncachedTexts : List String) (fresh : List Vec) : M Unit :=
  writeFreshAux fresh uncachedTexts.enum

/-- The `uncachedIndices.forEach((originalIndex, i) =>
embeddings[originalIndex] = freshEmbeddings[i]!)` splice. -/
def fillFresh (embeddings : List (Option Vec)) (uncachedIndices : List ℕ)
    (fresh : List Vec) : List (Option Vec) :=
  uncachedIndices.enum.foldl (fun acc p => acc.set p.2 (fresh.get? p.1)) embeddings

/-- `getEmbeddingsBatch(texts, useCache)`: without caching, one direct
batched provider call; with caching, read the cache for every text,
partition into hits and misses, and if any misses exist fetch exactly the
missed texts in one batched call, write each fresh vector back, and
splice the fresh vectors into their original index positions.  The
result entries are `Option`s because the source's `as number[][]` cast
can hide `undefined` entries when the provider returns fewer vectors
than requested. -/
def getEmbeddingsBatch (texts : List String) (useCache : Bool) :
    M (List (Option Vec)) :=
  if !useCache then do
    let vs ← getBatchEmbeddingsFromAPI texts
    pure (vs.map some)
  else do
    let embeddings ← readAllCache texts
    let uncached := missesOf texts embeddings
    if uncached.isEmpty then
      pure embeddings
    else do
      let fresh ← getBatchEmbeddingsFromAPI (uncached.map Prod.snd)
      writeFresh (uncached.map Prod.snd) fresh
      pure (fillFresh embeddings (uncached.map Prod.fst) fresh)

/-- The `results.map(extractTextContent)` step: a thrown `TypeError`
propagates at the first failing element. -/
def extractAllTexts : List SearchResult → Except JsError (List String)
  | [] => .ok []
  | r :: rest =>
      match extractTextContent r with
      | .ok t => (extractAllTexts rest).map (t :: ·)
      | .error e => .error e

/-- The `results.map((result, index) => ({ ...result, similarity:
cosineSimilarity(queryEmbedding, resultEmbeddings[index]!) }))` step,
written as indexed recursion: a missing embedding (`undefined`, from a
provider shortfall or an out-of-range index) makes `cosineSimilarity`
read `undefined.length`, a `TypeError`. -/
def scoreList (queryEmbedding : Vec) (resultEmbeddings : List (Option Vec)) :
    ℕ → List SearchResult → Except JsError (List RankedResult)
  | _, [] => .ok []
  | i, r :: rest =>
      match resultEmbeddings.getD i none with
      | some v =>
          match cosineSimilarity queryEmbedding v with
          | .ok s =>
              (scoreList queryEmbedding resultEmbeddings (i + 1) rest).map
                ({ r with similarity := s } :: ·)
          | .error e => .error e
      | none => .error .typeError

def scoreResults (queryEmbedding : Vec) (results : List SearchResult)
    (resultEmbeddings : List (Option Vec)) : Except JsError (List RankedResult) :=
  scoreList queryEmbedding resultEmbeddings 0 results

/-- `comparator(z, x) > 0` for the sort comparator
`(a, b) => b.similarity - a.similarity`: must `z` move after `x`? -/
def gtSim (z x : RankedResult) : Bool :=
  (JsNum.sub x.similarity z.similarity).isPos

/-- One step of V8's insertion sort: `x` sinks from the right past
exactly the maximal suffix of elements `z` with `comparator(z, x) > 0`. -/
def sinkInsert (l : List RankedResult) (x : RankedResult) : List RankedResult :=
  (l.reverse.dropWhile (fun z => gtSim z x)).reverse
    ++ x :: (l.reverse.takeWhile (fun z => gtSim z x)).reverse

/-- `rankedResults.sort((a, b) => b.similarity - a.similarity)` (see the
header for the modelling of `Array.prototype.sort`). -/
def sortV8 (l : List RankedResult) : List RankedResult := l.foldl sinkInsert []

/-- `rankSearchResults(query, results, { useCache })` (variant A): empty
input short-circuits to `[]`; otherwise query embedding, per-result text
extraction, batch embeddings, similarity scoring, and the descending
sort.  The surrounding `try`/`catch` only logs and rethrows, so every
error surfaces unchanged. -/
def rankSearchResults (query : String) (results : List SearchResult)
    (useCache : Bool) : M (List RankedResult) :=
  if results.length = 0 then pure []
  else do
    let queryEmbedding ← getEmbedding query useCache
    let resultTexts ← M.liftE (extractAllTexts results)
    let resultEmbeddings ← getEmbeddingsBatch resultTexts useCache
    let ranked ← M.liftE (scoreResults queryEmbedding results resultEmbeddings)
    pure (sortV8 ranked)

/-! ## Variant B: `src/backend/src/services/search/rank-results.ts`

The in-memory-cache near-duplicate.  Its `cosineSimilarity` and
`extractTextContent` are verbatim copies of variant A's; its
`getEmbedding` has no empty-text validation and no external cache; its
`getEmbeddingsBatch` is a direct batched provider call; its
`rankSearchResults` defaults `useCache` to `false` and keys a
parameter-passed plain-object cache by the raw query string (the query
cache only — candidate embeddings are never cached here). -/

/-- Variant B's `cosineSimilarity` (verbatim copy of variant A's). -/
def cosineSimilarityB (a b : Vec) : Except JsError JsNum :=
  if a.length ≠ b.length then .error .dimensionMismatch
  else
    .ok (JsNum.div (.num (cosLoop a b).1)
          (JsNum.mul (jsSqrtQ (cosLoop a b).2.1) (jsSqrtQ (cosLoop a b).2.2)))

/-- Variant B's `extractTextContent` (verbatim copy of variant A's). -/
def extractTextContentB (result : SearchResult) : Except JsError String :=
  match result.pagemap with
  | none => .error .typeError
  | some pm =>
    match pm.metatags with
    | some (m0 :: _) =>
        let description :=
          match m0.ogDescription with
          | some s => if s = "" then result.snippet else s.take 800
          | none => result.snippet
        .ok ("Title: " ++ result.title ++ " Description: " ++ description)
    | _ => .ok ("Title: " ++ result.title ++ " Description: " ++ result.snippet)

/-- Variant B's `getEmbedding(text)`: no validation, no cache; a missing
`data[0]?.embedding` throws; the `try`/`catch` only logs and rethrows. -/
def getEmbeddingB (text : String) : M Vec := do
  let r ← apiCreateSingle text
  match r with
  | none => M.throwE .noEmbedding
  | some emb => pure emb

/-- Variant B's `getEmbeddingsBatch(texts)`: one direct batched provider
call with per-item embedding extraction. -/
def getEmbeddingsBatchB (texts : List String) : M (List Vec) := do
  let data ← apiCreateBatch texts
  M.liftE (extractBatch data)

/-- Variant B's `interface EmbeddingCache { [key: string]: number[] }`,
modelled as an association list keyed by the raw query string. -/
abbrev EmbeddingCacheB := List (String × Vec)

/-- Variant B's `results.map(extractTextContent)` step. -/
def extractAllTextsB : List SearchResult → Except JsError (List String)
  | [] => .ok []
  | r :: rest =>
      match extractTextContentB r with
      | .ok t => (extractAllTextsB rest).map (t :: ·)
      | .error e => .error e

/-- Variant B's scoring map over `resultEmbeddings[index]!` (here a plain
`number[][]`, so only an out-of-range index yields `undefined`). -/
def scoreListB (queryEmbedding : Vec) (resultEmbeddings : List Vec) :
    ℕ → List SearchResult → Except JsError (List RankedResult)
  | _, [] => .ok []
  | i, r :: rest =>
      match resultEmbeddings.get? i with
      | some v =>
          match cosineSimilarityB queryEmbedding v with
          | .ok s =>
              (scoreListB queryEmbedding resultEmbeddings (i + 1) rest).map
                ({ r with similarity := s } :: ·)
          | .error e => .error e
      | none => .error .typeError

def scoreResultsB (queryEmbedding : Vec) (results : List SearchResult)
    (resultEmbeddings : List Vec) : Except JsError (List RankedResult) :=
  scoreListB queryEmbedding resultEmbeddings 0 results

/-- Variant B's `rankSearchResults(query, results, { useCache = false,
cache = {} })`.  `useCache && cache[query]` uses JS truthiness — any
present array, `[]` included, is a hit.  The write-back
`cache[query] = queryEmbedding` mutates the caller's plain object, an
effect invisible to the returned value and not modelled.  The sort line
is the verbatim comparator of variant A. -/
def rankSearchResultsB (query : String) (results : List SearchResult)
    (useCache : Bool) (cache : EmbeddingCacheB) : M (List RankedResult) :=
  if results.length = 0 then pure []
  else do
    let queryEmbedding ←
      match (if useCache then (cache.lookup query) else none) with
      | some v => pure v
      | none => getEmbeddingB query
    let resultTexts ← M.liftE (extractAllTextsB results)
    let resultEmbeddings ← getEmbeddingsBatchB resultTexts
    let ranked ← M.liftE (scoreResultsB queryEmbedding results resultEmbeddings)
    pure (sortV8 ranked)

/-! ## Reference formulations and arithmetic lemmas -/

/-- The dot product `Σ aᵢ·bᵢ`, stated independently of the source's
single-pass accumulator loop. -/
def dotQ (a b : Vec) : ℚ := ((a.zip b).map fun p => p.1 * p.2).sum

/-- The squared Euclidean norm `Σ aᵢ²`. -/
def sumSq (a : Vec) : ℚ := (a.map fun x => x * x).sum

/-- Reference description-selection policy actually implemented by
`extractTextContent`: the *first* metatag entry's `og:description`,
truncated to 800 characters, when that entry exists and the field is a
non-empty string; the snippet otherwise. -/
def firstMetatagDescription (pm : Pagemap) (snippet : String) : String :=
  match (pm.metatags.getD []).head? with
  | some m0 =>
      match m0.ogDescription with
      | some s => if s = "" then snippet else s.take 800
      | none => snippet
  | none => snippet

/-- What one cache probe of `text` yields under `env` (read errors
already degraded to misses, as `getCachedEmbedding` does). -/
def readVal (env : Env) (text : String) : Option Vec :=
  match env.read0 (generateEmbeddingCacheKey text) with
  | .hit v => some v
  | _ => none

/-- Reference splice: walk the cache-probe column and consume the fresh
vectors, in order, exactly at the miss positions — hits keep their
vectors and their positions, misses receive the fresh vectors in their
original index positions. -/
def spliceRef : List (Option Vec) → List Vec → List (Option Vec)
  | [], _ => []
  | some v :: rest, fresh => some v :: spliceRef rest fresh
  | none :: rest, [] => none :: spliceRef rest []
  | none :: rest, f :: fresh => some f :: spliceRef rest fresh

/-- The column of per-text cache probes: what the cache answers for each
text of the batch, in order. -/
def cacheColumn (env : Env) (texts : List String) : List (Option Vec) :=
  texts.map (readVal env)

/-- The `(index, text)` pairs at which the cache missed, for a batch run
against `env`. -/
def missedPairs (env : Env) (texts : List String) : List (ℕ × String) :=
  missesOf texts (cacheColumn env texts)

/-- Just the miss positions of a cache-probe column. -/
def missIdx (embs : List (Option Vec)) : List ℕ :=
  embs.enum.filterMap fun p =>
    match p.2 with
    | some _ => none
    | none => some p.1

/-- Is this effect a batched provider call? -/
def Eff.isBatchCall : Eff → Bool
  | .apiEmbedBatch _ => true
  | _ => false

/-- The same environment with every command-level cache-read failure
replaced by a plain miss. -/
def Env.degrade (env : Env) : Env :=
  { env with
    read0 := fun k =>
      match env.read0 k with
      | .err => .miss
      | o => o }

/-- `x` may precede `y` in a descending ranking: `y`'s similarity is
JS-`<=` `x`'s. -/
def simGeB (x y : RankedResult) : Bool := JsNum.leB y.similarity x.similarity

/-- Every similarity in the list is a finite number (no `NaN`, no
infinity). -/
def AllNum (l : List RankedResult) : Prop :=
  ∀ x ∈ l, ∃ q : ℚ, x.similarity = JsNum.num q

/-- Sorted by non-increasing similarity: every earlier element's
similarity is JS-`>=` every later one's. -/
def SortedSim (l : List RankedResult) : Prop :=
  l.Pairwise fun x y => simGeB x y = true

/-! ### Concrete fixtures for witnesses and counterexamples -/

/-- A minimal well-formed search result (present `pagemap`, no
metatags). -/
def mkPlain (t : String) : SearchResult :=
  { title := t, snippet := "s", pagemap := some { metatags := none } }

/-- A search result with no `pagemap` block at all (§6 allows this). -/
def rNoPagemap : SearchResult := { title := "t", snippet := "s", pagemap := none }

/-- A search result whose *second* metatag entry carries a rich
description while the first carries none. -/
def rSecondRich : SearchResult :=
  { title := "t", snippet := "s", pagemap := some { metatags := some [{ ogDescription := none }, { ogDescription := some "rich" }] } }

/-- A search result whose only metatag entry has an *empty-string*
`og:description`. -/
def rEmptyDesc : SearchResult :=
  { title := "t", snippet := "s", pagemap := some { metatags := some [{ ogDescription := some "" }] } }

/-- A benign environment: connected cache with no entries, a provider
answering `[1]` for everything. -/
def envNull : Env :=
  { connected := true
    read0 := fun _ => .miss
    apiSingle := fun _ => .ok (some [1])
    apiBatch := fun ts => .ok (ts.map fun _ => some [1]) }

/-- A disconnected-Redis environment (the provider itself is healthy). -/
def envDisc : Env :=
  { connected := false
    read0 := fun _ => .miss
    apiSingle := fun _ => .ok (some [1])
    apiBatch := fun ts => .ok (ts.map fun _ => some [1]) }

/-- A connected environment whose every cache read fails at command
level (rejected command or corrupt value). -/
def envErr : Env :=
  { connected := true
    read0 := fun _ => .err
    apiSingle := fun _ => .ok (some [1])
    apiBatch := fun ts => .ok (ts.map fun _ => some [1]) }

/-- An environment whose provider rejects every single-text call. -/
def envFail : Env :=
  { connected := true
    read0 := fun _ => .miss
    apiSingle := fun _ => .error (.apiFailure "boom")
    apiBatch := fun ts => .ok (ts.map fun _ => some [1]) }

/-- The spec's reconciliation example: five candidate texts of which
three (`t1`, `t2`, `t4`) have cache entries and two (`t3`, `t5`) do
not. -/
def envFive : Env :=
  { connected := true
    read0 := fun k =>
      if k = generateEmbeddingCacheKey "t1" then .hit [1, 0]
      else if k = generateEmbeddingCacheKey "t2" then .hit [2, 0]
      else if k = generateEmbeddingCacheKey "t4" then .hit [4, 0]
      else .miss
    apiSingle := fun _ => .ok (some [1])
    apiBatch := fun ts => .ok (ts.map fun _ => some [9, 9]) }

/-- An environment realizing similarities `1`, `3/5`, `NaN`, `24/25` for
the four plain results `r1..r4` (query vector `[3,4]`; candidate vectors
`[3,4]`, `[5,0]`, `[0,0]`, `[4,3]`, all with perfect-square norms so the
idealized square root is exact). -/
def envMix : Env :=
  { connected := true
    read0 := fun _ => .miss
    apiSingle := fun _ => .ok (some [3, 4])
    apiBatch := fun ts => .ok (ts.map fun t =>
      if t = "Title: r1 Description: s" then some [3, 4]
      else if t = "Title: r2 Description: s" then some [5, 0]
      else if t = "Title: r3 Description: s" then some [0, 0]
      else some [4, 3]) }

/-- The ranked output the model produces for `envMix` on `r1..r4`:
similarities `1`, `3/5`, `NaN`, `24/25` in input order — the element with
similarity `3/5` precedes the one with `24/25`. -/
def rankedMixOut : List RankedResult :=
  [{ toSearchResult := mkPlain "r1", similarity := .num 1 },
   { toSearchResult := mkPlain "r2", similarity := .num (3 / 5) },
   { toSearchResult := mkPlain "r3", similarity := .nan },
   { toSearchResult := mkPlain "r4", similarity := .num (24 / 25) }]

/-- The ranked output for two plain results under `envNull` (both
similarities are exactly `1`). -/
def rankedPairOut : List RankedResult :=
  [{ toSearchResult := mkPlain "a", similarity := .num 1 },
   { toSearchResult := mkPlain "b", similarity := .num 1 }]

/-- The extracted texts of `mkPlain "r1" .. "r4"`. -/
def mixTexts : List String :=
  ["Title: r1 Description: s", "Title: r2 Description: s",
   "Title: r3 Description: s", "Title: r4 Description: s"]

/-- The provider items `envMix` returns for `mixTexts`. -/
def mixData : List (Option Vec) :=
  [some [3, 4], some [5, 0], some [0, 0], some [4, 3]]

/-- The extracted texts of `mkPlain "a"` and `mkPlain "b"`. -/
def pairTexts : List String :=
  ["Title: a Description: s", "Title: b Description: s"]

theorem cosFold_acc (l : List (ℚ × ℚ)) : ∀ acc : ℚ × ℚ × ℚ,
    l.foldl
      (fun acc p => (acc.1 + p.1 * p.2, acc.2.1 + p.1 * p.1, acc.2.2 + p.2 * p.2))
      acc
      = (acc.1 + (l.map fun p => p.1 * p.2).sum,
         acc.2.1 + (l.map fun p => p.1 * p.1).sum,
         acc.2.2 + (l.map fun p => p.2 * p.2).sum) := by
  induction l with
  | nil => intro acc; simp
  | cons p l ih =>
      intro acc
      simp only [List.foldl_cons, List.map_cons, List.sum_cons, ih]
      refine Prod.ext (by ring) (Prod.ext (by ring) (by ring))

theorem zip_map_fst_sq : ∀ (a b : Vec), a.length = b.length →
    ((a.zip b).map fun p => p.1 * p.1) = a.map fun x => x * x
  | [], [], _ => rfl
  | x :: a, y :: b, h => by
      simp only [List.zip_cons_cons, List.map_cons, List.cons.injEq, true_and]
      exact zip_map_fst_sq a b (by simpa using h)

theorem zip_map_snd_sq : ∀ (a b : Vec), a.length = b.length →
    ((a.zip b).map fun p => p.2 * p.2) = b.map fun x => x * x
  | [], [], _ => rfl
  | x :: a, y :: b, h => by
      simp only [List.zip_cons_cons, List.map_cons, List.cons.injEq, true_and]
      exact zip_map_snd_sq a b (by simpa using h)

/-- The source's accumulator loop computes exactly the dot product and
the two squared norms. -/
theorem cosLoop_spec (a b : Vec) (h : a.length = b.length) :
    cosLoop a b = (dotQ a b, sumSq a, sumSq b) := by
  simp only [cosLoop, cosFold_acc, zip_map_fst_sq a b h, zip_map_snd_sq a b h,
    dotQ, sumSq, zero_add]

theorem sumSq_nonneg (a : Vec) : 0 ≤ sumSq a := by
  classical
  refine List.sum_nonneg ?_
  intro x hx
  rcases List.mem_map.1 hx with ⟨y, _, rfl⟩
  exact mul_self_nonneg y

theorem sumSq_of_zero {a : Vec} (h : ∀ x ∈ a, x = 0) : sumSq a = 0 := by
  refine List.sum_eq_zero ?_
  intro x hx
  rcases List.mem_map.1 hx with ⟨y, hy, rfl⟩
  simp [h y hy]

theorem sumSq_eq_zero_iff {a : Vec} : sumSq a = 0 ↔ ∀ x ∈ a, x = 0 := by
  constructor
  · intro h x hx
    by_contra hne
    have hpos : 0 < x * x := mul_self_pos.2 hne
    have hmem : x * x ∈ a.map fun t => t * t := List.mem_map.2 ⟨x, hx, rfl⟩
    have hle : x * x ≤ sumSq a := by
      refine List.single_le_sum ?_ _ hmem
      intro y hy
      rcases List.mem_map.1 hy with ⟨z, _, rfl⟩
      exact mul_self_nonneg z
    exact absurd (h ▸ hle) (by simpa using hpos.not_le)
  · exact sumSq_of_zero

theorem dotQ_of_zero_left {a : Vec} (b : Vec) (h : ∀ x ∈ a, x = 0) :
    dotQ a b = 0 := by
  refine List.sum_eq_zero ?_
  intro x hx
  rcases List.mem_map.1 hx with ⟨p, hp, rfl⟩
  have := (List.of_mem_zip hp).1
  simp [h _ this]

theorem dotQ_of_zero_right {b : Vec} (a : Vec) (h : ∀ x ∈ b, x = 0) :
    dotQ a b = 0 := by
  refine List.sum_eq_zero ?_
  intro x hx
  rcases List.mem_map.1 hx with ⟨p, hp, rfl⟩
  have := (List.of_mem_zip hp).2
  simp [h _ this]

theorem rat_sqrt_zero : Rat.sqrt 0 = 0 := by decide

theorem rat_sqrt_pos {q : ℚ} (h : 0 < q) : 0 < Rat.sqrt q := by
  have hnum : 0 < q.num := Rat.num_pos.2 h
  have hden : 0 < q.den := q.pos
  have h1 : 0 < Int.sqrt q.num := by
    unfold Int.sqrt
    have : 0 < Nat.sqrt q.num.toNat := Nat.sqrt_pos.2 (by omega)
    exact_mod_cast this
  have h2 : 0 < Nat.sqrt q.den := Nat.sqrt_pos.2 hden
  rw [Rat.sqrt, Rat.mkRat_eq_div]
  positivity

/-- The similarity value is always a finite number or `NaN`, never an
infinity: when the denominator vanishes a norm is zero, hence so is the
dot product. -/
theorem cosineSimilarity_num_or_nan {a b : Vec} {s : JsNum}
    (h : cosineSimilarity a b = .ok s) : s = .nan ∨ ∃ q : ℚ, s = .num q := by
  classical
  unfold cosineSimilarity at h
  by_cases hlen : a.length = b.length
  · simp only [hlen, ne_eq, not_true_eq_false, if_false, Except.ok.injEq] at h
    rw [cosLoop_spec a b hlen] at h
    rcases le_iff_lt_or_eq.1 (sumSq_nonneg a) with hA | hA
    · rcases le_iff_lt_or_eq.1 (sumSq_nonneg b) with hB | hB
      · have hsA : jsSqrtQ (sumSq a) = .num (Rat.sqrt (sumSq a)) := by
          simp [jsSqrtQ, not_lt.2 (le_of_lt hA)]
        have hsB : jsSqrtQ (sumSq b) = .num (Rat.sqrt (sumSq b)) := by
          simp [jsSqrtQ, not_lt.2 (le_of_lt hB)]
        have hden : Rat.sqrt (sumSq a) * Rat.sqrt (sumSq b) ≠ 0 :=
          (mul_pos (rat_sqrt_pos hA) (rat_sqrt_pos hB)).ne.symm
        rw [hsA, hsB] at h
        simp only [JsNum.mul, JsNum.div, hden, if_false] at h
        exact Or.inr ⟨_, h.symm⟩
      · have hz : dotQ a b = 0 :=
          dotQ_of_zero_right a (sumSq_eq_zero_iff.1 hB.symm)
        have hsB : jsSqrtQ (sumSq b) = .num 0 := by
          simp [jsSqrtQ, ← hB, rat_sqrt_zero]
        have hsA : jsSqrtQ (sumSq a) = .num (Rat.sqrt (sumSq a)) := by
          simp [jsSqrtQ, not_lt.2 (le_of_lt hA)]
        rw [hz, hsA, hsB] at h
        simp [JsNum.mul, JsNum.div] at h
        exact Or.inl h.symm
    · have hz : dotQ a b = 0 :=
        dotQ_of_zero_left b (sumSq_eq_zero_iff.1 hA.symm)
      have hsA : jsSqrtQ (sumSq a) = .num 0 := by
        simp [jsSqrtQ, ← hA, rat_sqrt_zero]
      rw [hz, hsA] at h
      rcases hsb : jsSqrtQ (sumSq b) with _ | _ | _ | q
      all_goals rw [hsb] at h
      · simp only [JsNum.mul, JsNum.div] at h
        exact Or.inl h.symm
      · simp only [JsNum.mul, JsNum.div] at h
        split at h <;> simp_all
      · simp only [JsNum.mul, JsNum.div] at h
        split at h <;> simp_all
      · simp [JsNum.mul, JsNum.div] at h
        exact Or.inl h.symm
  · simp [hlen] at h

/-! ## Sort lemmas -/

theorem dropWhile_first_false {α : Type} (p : α → Bool) :
    ∀ (l : List α) {y : α} {ys : List α}, l.dropWhile p = y :: ys → p y = false := by
  intro l
  induction l with
  | nil => intro y ys h; simp [List.dropWhile] at h
  | cons a t ih =>
      intro y ys h
      rw [List.dropWhile_cons] at h
      by_cases hp : p a
      · rw [if_pos hp] at h
        exact ih h
      · rw [if_neg hp] at h
        cases h
        simpa using hp

theorem sinkInsert_length (l : List RankedResult) (x : RankedResult) :
    (sinkInsert l x).length = l.length + 1 := by
  have h := congrArg List.length
    (List.takeWhile_append_dropWhile (fun z => gtSim z x) l.reverse)
  simp only [List.length_append, List.length_reverse] at h
  simp only [sinkInsert, List.length_append, List.length_reverse, List.length_cons]
  omega

theorem sinkInsert_perm (l : List RankedResult) (x : RankedResult) :
    List.Perm (sinkInsert l x) (x :: l) := by
  have h2 : (l.reverse.dropWhile fun z => gtSim z x).reverse
      ++ (l.reverse.takeWhile fun z => gtSim z x).reverse = l := by
    rw [← List.reverse_append, List.takeWhile_append_dropWhile, List.reverse_reverse]
  have h1 : List.Perm (sinkInsert l x)
      (x :: ((l.reverse.dropWhile fun z => gtSim z x).reverse
        ++ (l.reverse.takeWhile fun z => gtSim z x).reverse)) := List.perm_middle
  rw [h2] at h1
  exact h1

theorem foldl_sink_perm : ∀ (l acc : List RankedResult),
    List.Perm (l.foldl sinkInsert acc) (acc ++ l) := by
  intro l
  induction l with
  | nil => intro acc; simp
  | cons x t ih =>
      intro acc
      have h1 := ih (sinkInsert acc x)
      have h2 : List.Perm (sinkInsert acc x ++ t) ((x :: acc) ++ t) :=
        (sinkInsert_perm acc x).append_right t
      exact (h1.trans h2).trans List.perm_middle.symm

theorem sortV8_perm (l : List RankedResult) : List.Perm (sortV8 l) l := by
  simpa using foldl_sink_perm l []

theorem sortV8_length (l : List RankedResult) : (sortV8 l).length = l.length :=
  (sortV8_perm l).length_eq

theorem gtSim_num {z x : RankedResult} {qz qx : ℚ}
    (hz : z.similarity = .num qz) (hx : x.similarity = .num qx) :
    gtSim z x = decide (qz < qx) := by
  rw [gtSim, hz, hx]
  simp only [JsNum.sub, JsNum.isPos]
  exact decide_eq_decide.2 sub_pos

theorem simGeB_num {x y : RankedResult} {qx qy : ℚ}
    (hx : x.similarity = .num qx) (hy : y.similarity = .num qy) :
    simGeB x y = true ↔ qy ≤ qx := by
  rw [simGeB, hx, hy]
  simp [JsNum.leB]

theorem sinkInsert_sorted (l : List RankedResult) (x : RankedResult)
    (hl : AllNum l) (hx : ∃ q, x.similarity = JsNum.num q)
    (hs : SortedSim l) : SortedSim (sinkInsert l x) := by
  obtain ⟨qx, hqx⟩ := hx
  have hsplit : (l.reverse.takeWhile fun z => gtSim z x)
      ++ (l.reverse.dropWhile fun z => gtSim z x) = l.reverse :=
    List.takeWhile_append_dropWhile _ l.reverse
  have hrev : (l.reverse).Pairwise (fun a b => simGeB b a = true) :=
    List.pairwise_reverse.2 hs
  have hmem_tw : ∀ z ∈ (l.reverse.takeWhile fun z => gtSim z x), z ∈ l := by
    intro z hz
    exact List.mem_reverse.1 (hsplit ▸ List.mem_append_left _ hz)
  have hmem_dw : ∀ z ∈ (l.reverse.dropWhile fun z => gtSim z x), z ∈ l := by
    intro z hz
    exact List.mem_reverse.1 (hsplit ▸ List.mem_append_right _ hz)
  have hpz : ∀ z ∈ (l.reverse.takeWhile fun z => gtSim z x),
      ∃ qz, z.similarity = JsNum.num qz ∧ qz < qx := by
    intro z hz
    obtain ⟨qz, hqz⟩ := hl z (hmem_tw z hz)
    refine ⟨qz, hqz, ?_⟩
    have ht : gtSim z x = true := by simpa using List.mem_takeWhile_imp hz
    rw [gtSim_num hqz hqx] at ht
    exact of_decide_eq_true ht
  have hPW := hsplit ▸ hrev
  obtain ⟨htwPW, hdwPW, _⟩ := List.pairwise_append.1 hPW
  have hdwge : ∀ z ∈ (l.reverse.dropWhile fun z => gtSim z x),
      ∃ qz, z.similarity = JsNum.num qz ∧ qx ≤ qz := by
    cases hd : l.reverse.dropWhile (fun z => gtSim z x) with
    | nil => intro z hz; simp at hz
    | cons d0 rest =>
        have hd0mem : d0 ∈ l := hmem_dw d0 (by rw [hd]; exact List.mem_cons_self d0 rest)
        obtain ⟨q0, hq0⟩ := hl d0 hd0mem
        have hd0false : gtSim d0 x = false := by
          simpa using dropWhile_first_false (fun z => gtSim z x) l.reverse hd
        rw [gtSim_num hq0 hqx] at hd0false
        have h0 : qx ≤ q0 := not_lt.1 (of_decide_eq_false hd0false)
        intro z hz
        rcases List.mem_cons.1 hz with rfl | hz2
        · exact ⟨q0, hq0, h0⟩
        · obtain ⟨qz, hqz⟩ := hl z (hmem_dw z (by rw [hd]; exact List.mem_cons_of_mem d0 hz2))
          have hPWdw := hd ▸ hdwPW
          have hzge : simGeB z d0 = true := (List.pairwise_cons.1 hPWdw).1 z hz2
          have hle : q0 ≤ qz := (simGeB_num hqz hq0).1 hzge
          exact ⟨qz, hqz, le_trans h0 hle⟩
  show List.Pairwise (fun a b => simGeB a b = true) _
  rw [sinkInsert]
  refine List.pairwise_append.2 ⟨?_, ?_, ?_⟩
  · exact List.pairwise_reverse.2 hdwPW
  · refine List.pairwise_cons.2 ⟨?_, List.pairwise_reverse.2 htwPW⟩
    intro y hy
    obtain ⟨qy, hqy, hlt⟩ := hpz y (List.mem_reverse.1 hy)
    exact (simGeB_num hqx hqy).2 (le_of_lt hlt)
  · intro a ha b hb
    obtain ⟨qa, hqa, hge⟩ := hdwge a (List.mem_reverse.1 ha)
    rcases List.mem_cons.1 hb with rfl | hb2
    · exact (simGeB_num hqa hqx).2 hge
    · obtain ⟨qb, hqb, hlt⟩ := hpz b (List.mem_reverse.1 hb2)
      exact (simGeB_num hqa hqb).2 (le_trans (le_of_lt hlt) hge)

theorem sinkInsert_allNum {l : List RankedResult} {x : RankedResult}
    (hl : AllNum l) (hx : ∃ q, x.similarity = JsNum.num q) :
    AllNum (sinkInsert l x) := by
  intro z hz
  rcases List.mem_cons.1 ((sinkInsert_perm l x).mem_iff.1 hz) with rfl | h2
  · exact hx
  · exact hl z h2

theorem foldl_sink_sorted : ∀ (l acc : List RankedResult), AllNum l → AllNum acc →
    SortedSim acc → SortedSim (l.foldl sinkInsert acc) := by
  intro l
  induction l with
  | nil => intro acc _ _ hs; exact hs
  | cons x t ih =>
      intro acc hl ha hs
      have hx : ∃ q, x.similarity = JsNum.num q := hl x (by simp)
      exact ih (sinkInsert acc x) (fun z hz => hl z (by simp [hz]))
        (sinkInsert_allNum ha hx) (sinkInsert_sorted acc x ha hx hs)

/-- With no `NaN` among the similarities the comparator is consistent and
the V8 sort produces a non-increasing list. -/
theorem sortV8_sorted (l : List RankedResult) (h : AllNum l) :
    SortedSim (sortV8 l) := by
  refine foldl_sink_sorted l [] h ?_ ?_
  · intro z hz; simp at hz
  · exact List.Pairwise.nil

/-! ## Scoring lemmas -/

theorem scoreList_length (qe : Vec) (embs : List (Option Vec)) :
    ∀ (rs : List SearchResult) (i : ℕ) (out : List RankedResult),
      scoreList qe embs i rs = .ok out → out.length = rs.length := by
  intro rs
  induction rs with
  | nil => intro i out h; cases h; rfl
  | cons r rest ih =>
      intro i out h
      rw [scoreList] at h
      split at h
      · split at h
        · rcases hrec : scoreList qe embs (i + 1) rest with e | out2 <;>
            rw [hrec] at h <;> simp only [Except.map] at h
          · cases h
          · cases h
            simpa using ih (i + 1) out2 hrec
        · cases h
      · cases h

theorem scoreList_strip (qe : Vec) (embs : List (Option Vec)) :
    ∀ (rs : List SearchResult) (i : ℕ) (out : List RankedResult),
      scoreList qe embs i rs = .ok out →
      out.map (fun x => x.toSearchResult) = rs := by
  intro rs
  induction rs with
  | nil => intro i out h; cases h; rfl
  | cons r rest ih =>
      intro i out h
      rw [scoreList] at h
      split at h
      · split at h
        · rcases hrec : scoreList qe embs (i + 1) rest with e | out2 <;>
            rw [hrec] at h <;> simp only [Except.map] at h
          · cases h
          · cases h
            simpa using ih (i + 1) out2 hrec
        · cases h
      · cases h

theorem scoreList_numOrNan (qe : Vec) (embs : List (Option Vec)) :
    ∀ (rs : List SearchResult) (i : ℕ) (out : List RankedResult),
      scoreList qe embs i rs = .ok out →
      ∀ x ∈ out, x.similarity = JsNum.nan ∨ ∃ q : ℚ, x.similarity = JsNum.num q := by
  intro rs
  induction rs with
  | nil => intro i out h; cases h; intro x hx; simp at hx
  | cons r rest ih =>
      intro i out h
      rw [scoreList] at h
      split at h
      · split at h
        · rename_i v hemb s hcos
          rcases hrec : scoreList qe embs (i + 1) rest with e | out2 <;>
            rw [hrec] at h <;> simp only [Except.map] at h
          · cases h
          · cases h
            intro x hx
            rcases List.mem_cons.1 hx with rfl | hx2
            · simpa using cosineSimilarity_num_or_nan hcos
            · exact ih (i + 1) out2 hrec x hx2
        · cases h
      · cases h

/-! ## Monad inversion lemmas -/

theorem M.bind_ok {α β : Type} {x : M α} {f : α → M β} {env : Env} {b : β}
    {t : List Eff} (h : (x >>= f) env = (.ok b, t)) :
    ∃ a t1 t2, x env = (.ok a, t1) ∧ f a env = (.ok b, t2) ∧ t = t1 ++ t2 := by
  have h' : M.bind' x f env = (.ok b, t) := h
  rw [M.bind'] at h'
  rcases hx : x env with ⟨res1, t1⟩
  rw [hx] at h'
  cases res1 with
  | ok a =>
      simp only [Prod.mk.injEq] at h'
      exact ⟨a, t1, (f a env).2, rfl, Prod.ext h'.1 rfl, h'.2.symm⟩
  | error e => simp at h'

theorem M.bind_error {α β : Type} {x : M α} {f : α → M β} {env : Env} {e : JsError}
    {t : List Eff} (h : (x >>= f) env = (.error e, t)) :
    (∃ t1, x env = (.error e, t1)) ∨
      ∃ a t1 t2, x env = (.ok a, t1) ∧ f a env = (.error e, t2) ∧ t = t1 ++ t2 := by
  have h' : M.bind' x f env = (.error e, t) := h
  rw [M.bind'] at h'
  rcases hx : x env with ⟨res1, t1⟩
  rw [hx] at h'
  cases res1 with
  | ok a =>
      simp only [Prod.mk.injEq] at h'
      exact Or.inr ⟨a, t1, (f a env).2, rfl, Prod.ext h'.1 rfl, h'.2.symm⟩
  | error e1 =>
      simp only [Prod.mk.injEq] at h'
      have he : e1 = e := by simpa using h'.1
      exact Or.inl ⟨t1, by rw [he]⟩

/-! ## Component run equations -/

theorem getRedisClient_run {env : Env} (h : env.connected = true) :
    getRedisClient env = (.ok (), []) := by
  simp [getRedisClient, h]

theorem getRedisClient_run_disc {env : Env} (h : env.connected = false) :
    getRedisClient env = (.error .notConnected, []) := by
  simp [getRedisClient, h]

theorem redisGet_run (env : Env) (key : String) :
    redisGet key env
      = (.ok (match env.read0 key with | .hit v => some v | _ => none),
         [.cacheGet key]) := rfl

theorem apiCreateSingle_run (env : Env) (text : String) :
    apiCreateSingle text env = (env.apiSingle text, [.apiEmbed text]) := rfl

theorem apiCreateBatch_run (env : Env) (texts : List String) :
    apiCreateBatch texts env = (env.apiBatch texts, [.apiEmbedBatch texts]) := rfl

theorem getCachedEmbedding_run {env : Env} (text : String)
    (h : env.connected = true) :
    getCachedEmbedding text env
      = (.ok (readVal env text), [.cacheGet (generateEmbeddingCacheKey text)]) := by
  simp [getCachedEmbedding, getRedisClient_run h, redisGet_run, readVal]

theorem setCachedEmbedding_run {env : Env} (text : String) (v : Option Vec)
    (h : env.connected = true) :
    setCachedEmbedding text v env
      = (.ok (), [.cacheSet (generateEmbeddingCacheKey text) v]) := by
  simp [setCachedEmbedding, getRedisClient_run h, redisSetEx]

theorem getBatchEmbeddingsFromAPI_run {env : Env} {texts : List String}
    {data : List (Option Vec)}
    (h : env.apiBatch texts = .ok data) :
    getBatchEmbeddingsFromAPI texts env
      = (extractBatch data, [.apiEmbedBatch texts]) := by
  simp [getBatchEmbeddingsFromAPI, apiCreateBatch_run, h]

theorem readAllCache_run {env : Env} (h : env.connected = true) :
    ∀ texts : List String,
      readAllCache texts env
        = (.ok (texts.map (readVal env)),
           texts.map fun t => .cacheGet (generateEmbeddingCacheKey t)) := by
  intro texts
  induction texts with
  | nil => rfl
  | cons t ts ih =>
      simp [readAllCache, getCachedEmbedding_run t h, ih]

theorem writeFreshAux_run {env : Env} (fresh : List Vec) (h : env.connected = true) :
    ∀ pairs : List (ℕ × String),
      writeFreshAux fresh pairs env
        = (.ok (), pairs.map fun p =>
            .cacheSet (generateEmbeddingCacheKey p.2) (fresh.get? p.1)) := by
  intro pairs
  induction pairs with
  | nil => rfl
  | cons p rest ih =>
      simp only [writeFreshAux, M.bind_run]
      rw [setCachedEmbedding_run p.2 (fresh.get? p.1) h, ih]
      simp

theorem getEmbedding_run_cacheHit {env : Env} {text : String} {v : Vec}
    (hc : env.connected = true) (hb : isBlank text = false)
    (hr : readVal env text = some v) :
    getEmbedding text true env
      = (.ok v, [.cacheGet (generateEmbeddingCacheKey text)]) := by
  simp [getEmbedding, hb, getCachedEmbedding_run text hc, hr]

theorem getEmbedding_run_cacheMiss {env : Env} {text : String} {v : Vec}
    (hc : env.connected = true) (hb : isBlank text = false)
    (hr : readVal env text = none) (ha : env.apiSingle text = .ok (some v)) :
    getEmbedding text true env
      = (.ok v, [.cacheGet (generateEmbeddingCacheKey text), .apiEmbed text,
          .cacheSet (generateEmbeddingCacheKey text) (some v)]) := by
  simp [getEmbedding, hb, getCachedEmbedding_run text hc, hr, apiCreateSingle_run, ha,
    setCachedEmbedding_run text (some v) hc]

theorem getEmbedding_run_cacheMiss_err {env : Env} {text : String} {e : JsError}
    (hc : env.connected = true) (hb : isBlank text = false)
    (hr : readVal env text = none) (ha : env.apiSingle text = .error e) :
    getEmbedding text true env
      = (.error e, [.cacheGet (generateEmbeddingCacheKey text), .apiEmbed text]) := by
  simp [getEmbedding, hb, getCachedEmbedding_run text hc, hr, apiCreateSingle_run, ha]

theorem getEmbedding_run_nocache {env : Env} {text : String} {v : Vec}
    (hb : isBlank text = false) (ha : env.apiSingle text = .ok (some v)) :
    getEmbedding text false env = (.ok v, [.apiEmbed text]) := by
  simp [getEmbedding, hb, apiCreateSingle_run, ha]

/-! ## Concrete similarity values (rational arithmetic via `norm_num`) -/

theorem rat_sqrt_one : Rat.sqrt 1 = 1 := by
  rw [show (1 : ℚ) = 1 * 1 by norm_num, Rat.sqrt_eq]
  norm_num

theorem rat_sqrt_25 : Rat.sqrt 25 = 5 := by
  rw [show (25 : ℚ) = 5 * 5 by norm_num, Rat.sqrt_eq]
  norm_num

theorem cosineSimilarity_eq (a b : Vec) (h : a.length = b.length) :
    cosineSimilarity a b =
      .ok (JsNum.div (.num (dotQ a b))
            (JsNum.mul (jsSqrtQ (sumSq a)) (jsSqrtQ (sumSq b)))) := by
  simp [cosineSimilarity, h, cosLoop_spec a b h]

theorem cos_one_one : cosineSimilarity [1] [1] = .ok (.num 1) := by
  rw [cosineSimilarity_eq [1] [1] rfl]
  have hd : dotQ [1] [1] = 1 := by simp [dotQ]
  have hs : sumSq [1] = 1 := by simp [sumSq]
  rw [hd, hs]
  norm_num [jsSqrtQ, rat_sqrt_one, JsNum.mul, JsNum.div]

theorem cos_mix1 : cosineSimilarity [3, 4] [3, 4] = .ok (.num 1) := by
  rw [cosineSimilarity_eq [3, 4] [3, 4] rfl]
  have hd : dotQ [3, 4] [3, 4] = 25 := by simp [dotQ]; norm_num
  have hs : sumSq [3, 4] = 25 := by simp [sumSq]; norm_num
  rw [hd, hs]
  norm_num [jsSqrtQ, rat_sqrt_25, JsNum.mul, JsNum.div]

theorem cos_mix2 : cosineSimilarity [3, 4] [5, 0] = .ok (.num (3 / 5)) := by
  rw [cosineSimilarity_eq [3, 4] [5, 0] rfl]
  have hd : dotQ [3, 4] [5, 0] = 15 := by simp [dotQ]; norm_num
  have hs : sumSq [3, 4] = 25 := by simp [sumSq]; norm_num
  have hs2 : sumSq [5, 0] = 25 := by simp [sumSq]; norm_num
  rw [hd, hs, hs2]
  norm_num [jsSqrtQ, rat_sqrt_25, JsNum.mul, JsNum.div]

theorem cos_mix3 : cosineSimilarity [3, 4] [0, 0] = .ok .nan := by
  rw [cosineSimilarity_eq [3, 4] [0, 0] rfl]
  have hd : dotQ [3, 4] [0, 0] = 0 := by simp [dotQ]
  have hs : sumSq [3, 4] = 25 := by simp [sumSq]; norm_num
  have hs2 : sumSq [0, 0] = 0 := by simp [sumSq]
  rw [hd, hs, hs2]
  norm_num [jsSqrtQ, rat_sqrt_25, rat_sqrt_zero, JsNum.mul, JsNum.div]

theorem cos_mix4 : cosineSimilarity [3, 4] [4, 3] = .ok (.num (24 / 25)) := by
  rw [cosineSimilarity_eq [3, 4] [4, 3] rfl]
  have hd : dotQ [3, 4] [4, 3] = 24 := by simp [dotQ]; norm_num
  have hs : sumSq [3, 4] = 25 := by simp [sumSq]; norm_num
  have hs2 : sumSq [4, 3] = 25 := by simp [sumSq]; norm_num
  rw [hd, hs, hs2]
  norm_num [jsSqrtQ, rat_sqrt_25, JsNum.mul, JsNum.div]

/-! ## Concrete whole-pipeline runs -/

theorem rankMix_scored :
    scoreResults [3, 4] [mkPlain "r1", mkPlain "r2", mkPlain "r3", mkPlain "r4"]
      mixData = .ok rankedMixOut := by
  simp [scoreResults, scoreList, mixData, rankedMixOut, List.getD,
    cos_mix1, cos_mix2, cos_mix3, cos_mix4, Except.map]

theorem rankMix_sorted_id : sortV8 rankedMixOut = rankedMixOut := by
  have g12 : gtSim { toSearchResult := mkPlain "r1", similarity := .num 1 }
      { toSearchResult := mkPlain "r2", similarity := .num (3 / 5) } = false := by
    simp [gtSim, JsNum.sub, JsNum.isPos]
    norm_num
  have g23 : gtSim { toSearchResult := mkPlain "r2", similarity := .num (3 / 5) }
      { toSearchResult := mkPlain "r3", similarity := JsNum.nan } = false := rfl
  have g34 : gtSim { toSearchResult := mkPlain "r3", similarity := JsNum.nan }
      { toSearchResult := mkPlain "r4", similarity := .num (24 / 25) } = false := rfl
  simp [sortV8, sinkInsert, rankedMixOut, g12, g23, g34]

theorem rankMix_run :
    rankSearchResults "q" [mkPlain "r1", mkPlain "r2", mkPlain "r3", mkPlain "r4"]
        false envMix
      = (.ok rankedMixOut, [.apiEmbed "q", .apiEmbedBatch mixTexts]) := by
  have h1 : getEmbedding "q" false envMix = (.ok [3, 4], [.apiEmbed "q"]) :=
    getEmbedding_run_nocache (by decide) rfl
  have h2 : extractAllTexts [mkPlain "r1", mkPlain "r2", mkPlain "r3", mkPlain "r4"]
      = .ok mixTexts := by decide
  have hAPI : envMix.apiBatch mixTexts = .ok mixData := by decide
  have hex : extractBatch [some [3, 4], some [5, 0], some [0, 0], some [4, 3]]
      = .ok [[3, 4], [5, 0], [0, 0], [4, 3]] := by decide
  have h3 : getEmbeddingsBatch mixTexts false envMix
      = (.ok mixData, [.apiEmbedBatch mixTexts]) := by
    simp [getEmbeddingsBatch, getBatchEmbeddingsFromAPI_run hAPI, hex, mixData]
  rw [rankSearchResults, if_neg (by decide)]
  simp [M.bind_run, h1, h2, h3, rankMix_scored, rankMix_sorted_id]

theorem rankPair_scored :
    scoreResults [1] [mkPlain "a", mkPlain "b"] [some [1], some [1]]
      = .ok rankedPairOut := by
  simp [scoreResults, scoreList, rankedPairOut, List.getD, cos_one_one, Except.map]

theorem rankPair_sorted_id : sortV8 rankedPairOut = rankedPairOut := by
  have g : gtSim { toSearchResult := mkPlain "a", similarity := .num 1 }
      { toSearchResult := mkPlain "b", similarity := .num 1 } = false := by
    simp [gtSim, JsNum.sub, JsNum.isPos]
  simp [sortV8, sinkInsert, rankedPairOut, g]

theorem rankPair_run :
    rankSearchResults "q" [mkPlain "a", mkPlain "b"] true envNull
      = (.ok rankedPairOut,
         [.cacheGet (generateEmbeddingCacheKey "q"), .apiEmbed "q",
          .cacheSet (generateEmbeddingCacheKey "q") (some [1]),
          .cacheGet (generateEmbeddingCacheKey "Title: a Description: s"),
          .cacheGet (generateEmbeddingCacheKey "Title: b Description: s"),
          .apiEmbedBatch pairTexts,
          .cacheSet (generateEmbeddingCacheKey "Title: a Description: s") (some [1]),
          .cacheSet (generateEmbeddingCacheKey "Title: b Description: s") (some [1])]) := by
  have h1 : getEmbedding "q" true envNull
      = (.ok [1], [.cacheGet (generateEmbeddingCacheKey "q"), .apiEmbed "q",
          .cacheSet (generateEmbeddingCacheKey "q") (some [1])]) := by decide
  have h2 : extractAllTexts [mkPlain "a", mkPlain "b"] = .ok pairTexts := by decide
  have h3 : getEmbeddingsBatch pairTexts true envNull
      = (.ok [some [1], some [1]],
         [.cacheGet (generateEmbeddingCacheKey "Title: a Description: s"),
          .cacheGet (generateEmbeddingCacheKey "Title: b Description: s"),
          .apiEmbedBatch pairTexts,
          .cacheSet (generateEmbeddingCacheKey "Title: a Description: s") (some [1]),
          .cacheSet (generateEmbeddingCacheKey "Title: b Description: s") (some [1])]) := by
    decide
  rw [rankSearchResults, if_neg (by decide)]
  simp [M.bind_run, h1, h2, h3, rankPair_scored, rankPair_sorted_id]

/-! ## Read-failure degradation: `Env.degrade` is invisible to every
operation, because the source absorbs command-level read failures into
misses and swallows write failures. -/

theorem M.bind_degrade {α β : Type} {x : M α} {f : α → M β} {env : Env}
    (hx : x env.degrade = x env) (hf : ∀ a, f a env.degrade = f a env) :
    (x >>= f) env.degrade = (x >>= f) env := by
  show M.bind' x f env.degrade = M.bind' x f env
  rw [M.bind', M.bind', hx]
  rcases hv : x env with ⟨r, t⟩
  cases r
  · rfl
  · simp [hf]

theorem degrade_getRedisClient (env : Env) :
    getRedisClient env.degrade = getRedisClient env := rfl

theorem degrade_redisGet (env : Env) (key : String) :
    redisGet key env.degrade = redisGet key env := by
  rcases h : env.read0 key with _ | _ | v <;> simp [redisGet, Env.degrade, h]

theorem degrade_apiCreateSingle (env : Env) (t : String) :
    apiCreateSingle t env.degrade = apiCreateSingle t env := rfl

theorem degrade_apiCreateBatch (env : Env) (ts : List String) :
    apiCreateBatch ts env.degrade = apiCreateBatch ts env := rfl

theorem degrade_getCachedEmbedding (env : Env) (t : String) :
    getCachedEmbedding t env.degrade = getCachedEmbedding t env := by
  simp [getCachedEmbedding, M.bind_run, degrade_getRedisClient, degrade_redisGet]

theorem degrade_setCachedEmbedding (env : Env) (t : String) (v : Option Vec) :
    setCachedEmbedding t v env.degrade = setCachedEmbedding t v env := by
  simp [setCachedEmbedding, M.bind_run, degrade_getRedisClient, redisSetEx]

theorem degrade_getEmbedding (env : Env) (t : String) (uc : Bool) :
    getEmbedding t uc env.degrade = getEmbedding t uc env := by
  cases hb : isBlank t
  case false =>
    rw [getEmbedding, hb]
    simp only [Bool.false_eq_true, if_false]
    cases uc
    case false =>
      simp only [Bool.false_eq_true, if_false]
      refine M.bind_degrade rfl ?_
      intro a
      cases a
      case none =>
        refine M.bind_degrade rfl ?_
        intro r
        cases r
        case none => rfl
        case some emb => simp [M.bind_run]
      case some v => rfl
    case true =>
      simp only [if_pos]
      refine M.bind_degrade (degrade_getCachedEmbedding env t) ?_
      intro a
      cases a
      case none =>
        refine M.bind_degrade rfl ?_
        intro r
        cases r
        case none => rfl
        case some emb =>
          simp only [if_pos]
          exact M.bind_degrade (degrade_setCachedEmbedding env t (some emb))
            (fun _ => rfl)
      case some v => rfl
  case true => simp [getEmbedding, hb]

theorem degrade_getBatchEmbeddingsFromAPI (env : Env) (ts : List String) :
    getBatchEmbeddingsFromAPI ts env.degrade = getBatchEmbeddingsFromAPI ts env := by
  simp [getBatchEmbeddingsFromAPI, M.bind_run, degrade_apiCreateBatch]

theorem degrade_readAllCache (env : Env) :
    ∀ ts : List String, readAllCache ts env.degrade = readAllCache ts env := by
  intro ts
  induction ts with
  | nil => rfl
  | cons t rest ih =>
      simp [readAllCache, M.bind_run, degrade_getCachedEmbedding, ih]

theorem degrade_writeFreshAux (env : Env) (fresh : List Vec) :
    ∀ pairs : List (ℕ × String),
      writeFreshAux fresh pairs env.degrade = writeFreshAux fresh pairs env := by
  intro pairs
  induction pairs with
  | nil => rfl
  | cons p rest ih =>
      simp [writeFreshAux, M.bind_run, degrade_setCachedEmbedding, ih]

theorem degrade_getEmbeddingsBatch (env : Env) (ts : List String) (uc : Bool) :
    getEmbeddingsBatch ts uc env.degrade = getEmbeddingsBatch ts uc env := by
  cases uc
  case false =>
    rw [getEmbeddingsBatch]
    simp only [Bool.not_false, if_pos]
    exact M.bind_degrade (degrade_getBatchEmbeddingsFromAPI env ts) (fun _ => rfl)
  case true =>
    rw [getEmbeddingsBatch]
    simp only [Bool.not_true, Bool.false_eq_true, if_false]
    refine M.bind_degrade (degrade_readAllCache env ts) ?_
    intro embeddings
    by_cases he : (missesOf ts embeddings).isEmpty
    · simp [he]
    · simp only [he, Bool.false_eq_true, if_false]
      refine M.bind_degrade (degrade_getBatchEmbeddingsFromAPI env _) ?_
      intro fresh
      exact M.bind_degrade (degrade_writeFreshAux env fresh _) (fun _ => rfl)

theorem degrade_rankSearchResults (query : String) (results : List SearchResult)
    (useCache : Bool) (env : Env) :
    rankSearchResults query results useCache env.degrade
      = rankSearchResults query results useCache env := by
  by_cases h0 : results.length = 0
  · simp [rankSearchResults, h0]
  · simp [rankSearchResults, h0, M.bind_run, degrade_getEmbedding,
      degrade_getEmbeddingsBatch]

/-! ## Splice lemmas for the batch reconciliation -/

theorem enumFrom_shift {α : Type} : ∀ (l : List α) (n : ℕ),
    l.enumFrom (n + 1) = (l.enumFrom n).map fun p => (p.1 + 1, p.2) := by
  intro l
  induction l with
  | nil => intro n; rfl
  | cons a t ih =>
      intro n
      show (n + 1, a) :: t.enumFrom (n + 2) = (n + 1, a) :: (t.enumFrom (n + 1)).map _
      rw [ih (n + 1)]

theorem missesOf_fst (texts : List String) (embs : List (Option Vec)) :
    (missesOf texts embs).map Prod.fst = missIdx embs := by
  rw [missesOf, missIdx, List.map_filterMap]
  congr 1
  funext p
  rcases p with ⟨i, e⟩
  cases e <;> rfl

theorem missIdx_cons_some (v : Vec) (rest : List (Option Vec)) :
    missIdx (some v :: rest) = (missIdx rest).map (· + 1) := by
  rw [missIdx, missIdx]
  show ((rest.enumFrom 1).filterMap fun p =>
      match p.2 with
      | some _ => none
      | none => some p.1) = _
  rw [show rest.enumFrom 1 = rest.enum.map (fun p => (p.1 + 1, p.2)) from
    enumFrom_shift rest 0]
  rw [List.filterMap_map, List.map_filterMap]
  apply List.filterMap_congr
  intro p _
  rcases p with ⟨i, e⟩
  cases e <;> rfl

theorem missIdx_cons_none (rest : List (Option Vec)) :
    missIdx (none :: rest) = 0 :: (missIdx rest).map (· + 1) := by
  rw [missIdx, missIdx]
  show (0 :: (rest.enumFrom 1).filterMap fun p =>
      match p.2 with
      | some _ => none
      | none => some p.1) = _
  rw [show rest.enumFrom 1 = rest.enum.map (fun p => (p.1 + 1, p.2)) from
    enumFrom_shift rest 0]
  rw [List.filterMap_map, List.map_filterMap]
  show 0 :: _ = 0 :: _
  congr 1
  apply List.filterMap_congr
  intro p _
  rcases p with ⟨i, e⟩
  cases e <;> rfl

theorem foldl_set_cons (f : ℕ × ℕ → Option Vec) (g : ℕ × ℕ → ℕ) :
    ∀ (pairs : List (ℕ × ℕ)) (a : Option Vec) (acc : List (Option Vec)),
      pairs.foldl (fun acc p => acc.set (g p + 1) (f p)) (a :: acc)
        = a :: pairs.foldl (fun acc p => acc.set (g p) (f p)) acc := by
  intro pairs
  induction pairs with
  | nil => intro a acc; rfl
  | cons q rest ih =>
      intro a acc
      rw [List.foldl_cons, List.foldl_cons]
      rw [show (a :: acc).set (g q + 1) (f q) = a :: acc.set (g q) (f q) from rfl]
      exact ih a (acc.set (g q) (f q))

theorem fill_eq_splice : ∀ (embs : List (Option Vec)) (fresh : List Vec),
    fillFresh embs (missIdx embs) fresh = spliceRef embs fresh := by
  intro embs
  induction embs with
  | nil => intro fresh; rfl
  | cons e rest ih =>
      intro fresh
      cases e with
      | some v =>
          rw [missIdx_cons_some, fillFresh, List.enum_map, List.foldl_map]
          show (missIdx rest).enum.foldl
              (fun acc p => acc.set (p.2 + 1) (fresh.get? p.1)) (some v :: rest)
            = spliceRef (some v :: rest) fresh
          rw [foldl_set_cons (fun p => fresh.get? p.1) (fun p => p.2)
            (missIdx rest).enum (some v) rest]
          show some v :: fillFresh rest (missIdx rest) fresh = _
          rw [ih fresh]
          rfl
      | none =>
          rw [missIdx_cons_none, fillFresh]
          rw [show ((0 : ℕ) :: (missIdx rest).map (· + 1)).enum
              = ((0 : ℕ), (0 : ℕ)) :: ((missIdx rest).map (· + 1)).enumFrom 1
            from rfl]
          rw [List.foldl_cons]
          rw [show ((none : Option Vec) :: rest).set 0 (fresh.get? 0)
              = fresh.get? 0 :: rest from rfl]
          rw [enumFrom_shift ((missIdx rest).map (· + 1)) 0]
          rw [show ((missIdx rest).map (· + 1)).enumFrom 0
              = ((missIdx rest).map (· + 1)).enum from rfl]
          rw [List.enum_map, List.map_map, List.foldl_map]
          cases fresh with
          | nil =>
              show (missIdx rest).enum.foldl
                  (fun acc p => acc.set (p.2 + 1) (([] : List Vec).get? (p.1 + 1)))
                  ((none : Option Vec) :: rest) = _
              have hfn : (fun (acc : List (Option Vec)) (p : ℕ × ℕ) =>
                    acc.set (p.2 + 1) (([] : List Vec).get? (p.1 + 1)))
                  = fun acc p => acc.set (p.2 + 1) (([] : List Vec).get? p.1) := by
                funext acc p
                rfl
              rw [hfn]
              rw [foldl_set_cons (fun p => ([] : List Vec).get? p.1) (fun p => p.2)
                (missIdx rest).enum none rest]
              show (none : Option Vec) :: fillFresh rest (missIdx rest) [] = _
              rw [ih []]
              rfl
          | cons fh ftail =>
              show (missIdx rest).enum.foldl
                  (fun acc p => acc.set (p.2 + 1) ((fh :: ftail).get? (p.1 + 1)))
                  (some fh :: rest) = _
              have hfn : (fun (acc : List (Option Vec)) (p : ℕ × ℕ) =>
                    acc.set (p.2 + 1) ((fh :: ftail).get? (p.1 + 1)))
                  = fun acc p => acc.set (p.2 + 1) (ftail.get? p.1) := by
                funext acc p
                rfl
              rw [hfn]
              rw [foldl_set_cons (fun p => ftail.get? p.1) (fun p => p.2)
                (missIdx rest).enum (some fh) rest]
              show some fh :: fillFresh rest (missIdx rest) ftail = _
              rw [ih ftail]
              rfl

theorem spliceRef_length : ∀ (embs : List (Option Vec)) (fresh : List Vec),
    (spliceRef embs fresh).length = embs.length := by
  intro embs
  induction embs with
  | nil => intro fresh; rfl
  | cons e rest ih =>
      intro fresh
      cases e with
      | some v => simp [spliceRef, ih]
      | none =>
          cases fresh with
          | nil => simp [spliceRef, ih]
          | cons fh ftail => simp [spliceRef, ih]

theorem spliceRef_get_hit : ∀ (embs : List (Option Vec)) (fresh : List Vec)
    (i : ℕ) (v : Vec), embs.get? i = some (some v) →
    (spliceRef embs fresh).get? i = some (some v) := by
  intro embs
  induction embs with
  | nil => intro fresh i v h; simp at h
  | cons e rest ih =>
      intro fresh i v h
      cases i with
      | zero =>
          simp only [List.get?] at h
          cases h
          rfl
      | succ j =>
          simp only [List.get?] at h
          cases e with
          | some w => exact ih fresh j v h
          | none =>
              cases fresh with
              | nil => exact ih [] j v h
              | cons fh ftail => exact ih ftail j v h

theorem spliceRef_get_miss : ∀ (embs : List (Option Vec)) (fresh : List Vec)
    (i : ℕ), embs.get? i = some none →
    (spliceRef embs fresh).get? i
      = some (fresh.get? ((embs.take i).countP fun e => e.isNone)) := by
  intro embs
  induction embs with
  | nil => intro fresh i h; simp at h
  | cons e rest ih =>
      intro fresh i h
      cases i with
      | zero =>
          simp only [List.get?] at h
          cases h
          cases fresh with
          | nil => rfl
          | cons fh ftail => rfl
      | succ j =>
          simp only [List.get?] at h
          cases e with
          | some w =>
              show (spliceRef rest fresh).get? j = _
              rw [ih fresh j h]
              simp [List.countP_cons, Option.isNone]
          | none =>
              cases fresh with
              | nil =>
                  show (spliceRef rest []).get? j = _
                  rw [ih [] j h]
                  simp [List.countP_cons, Option.isNone]
              | cons fh ftail =>
                  show (spliceRef rest ftail).get? j = _
                  rw [ih ftail j h]
                  simp [List.countP_cons, Option.isNone]

theorem filter_batch_map_get (l : List String) :
    (l.map fun t =>
      Eff.cacheGet (generateEmbeddingCacheKey t)).filter Eff.isBatchCall = [] := by
  induction l with
  | nil => rfl
  | cons t ts ih => simp [List.filter_cons, Eff.isBatchCall, ih]

theorem filter_batch_map_set (fresh : List Vec) (l : List (ℕ × String)) :
    (l.map fun p =>
        Eff.cacheSet (generateEmbeddingCacheKey p.2) (fresh.get? p.1)).filter
      Eff.isBatchCall = [] := by
  induction l with
  | nil => rfl
  | cons p rest ih =>
      simp [List.filter_cons, Eff.isBatchCall, ih]
      intro a x s _ he
      subst he
      rfl

theorem getEmbeddingsBatch_run_misses {env : Env} {texts : List String}
    {data : List (Option Vec)} {fresh : List Vec}
    (hc : env.connected = true)
    (hm : missedPairs env texts ≠ [])
    (hb : env.apiBatch ((missedPairs env texts).map Prod.snd) = .ok data)
    (hx : extractBatch data = .ok fresh) :
    getEmbeddingsBatch texts true env
      = (.ok (spliceRef (cacheColumn env texts) fresh),
         (texts.map fun t => Eff.cacheGet (generateEmbeddingCacheKey t))
           ++ Eff.apiEmbedBatch ((missedPairs env texts).map Prod.snd)
             :: ((missedPairs env texts).map Prod.snd).enum.map fun p =>
                  Eff.cacheSet (generateEmbeddingCacheKey p.2) (fresh.get? p.1)) := by
  simp only [missedPairs, cacheColumn] at hm hb ⊢
  have hfill : fillFresh (texts.map (readVal env))
      ((missesOf texts (texts.map (readVal env))).map Prod.fst) fresh
      = spliceRef (texts.map (readVal env)) fresh := by
    rw [missesOf_fst, fill_eq_splice]
  simp [getEmbeddingsBatch, M.bind_run, readAllCache_run hc texts, hm,
    getBatchEmbeddingsFromAPI_run hb, hx, writeFresh, writeFreshAux_run fresh hc,
    hfill]

/-! ## Claims -/

/-- C6: `cosineSimilarity` raises `DimensionMismatchError` exactly when
the two argument vectors differ in length; for equal-length vectors it
returns the dot product divided by the product of the two vector norms
(computed in one accumulator pass), without raising. -/
theorem C6_cosine_dimension (a b : Vec) :
    (cosineSimilarity a b = .error .dimensionMismatch ↔ a.length ≠ b.length) ∧
    (a.length = b.length →
      cosineSimilarity a b =
        .ok (JsNum.div (.num (dotQ a b))
              (JsNum.mul (jsSqrtQ (sumSq a)) (jsSqrtQ (sumSq b))))) := by
  constructor
  · constructor
    · intro h
      by_contra hlen
      simp [cosineSimilarity, hlen] at h
    · intro h
      simp [cosineSimilarity, h]
  · intro h
    simp [cosineSimilarity, h, cosLoop_spec a b h]

/-- Witness for C6 at the equal-length pair `[3,4]`, `[6,8]`. -/
theorem C6_cosine_dimension_witness :
    cosineSimilarity [3, 4] [6, 8] =
      .ok (JsNum.div (.num (dotQ [3, 4] [6, 8]))
            (JsNum.mul (jsSqrtQ (sumSq [3, 4])) (jsSqrtQ (sumSq [6, 8])))) :=
  (C6_cosine_dimension [3, 4] [6, 8]).2 rfl

/-- C9: for equal-length vectors of which at least one is all-zero,
`cosineSimilarity` returns `NaN` — the implementation applies no special
zero-norm policy, and the `0 / 0` division produces `NaN`. -/
theorem C9_zero_vector_nan (a b : Vec) (hlen : a.length = b.length)
    (hzero : (∀ x ∈ a, x = 0) ∨ (∀ x ∈ b, x = 0)) :
    cosineSimilarity a b = .ok .nan := by
  have hB := sumSq_nonneg b
  have hA := sumSq_nonneg a
  rcases hzero with hz | hz
  · have h1 : dotQ a b = 0 := dotQ_of_zero_left b hz
    have h2 : sumSq a = 0 := sumSq_of_zero hz
    simp [cosineSimilarity, hlen, cosLoop_spec a b hlen, h1, h2, jsSqrtQ,
      rat_sqrt_zero, not_lt.2 hB, JsNum.mul, JsNum.div]
  · have h1 : dotQ a b = 0 := dotQ_of_zero_right a hz
    have h2 : sumSq b = 0 := sumSq_of_zero hz
    simp [cosineSimilarity, hlen, cosLoop_spec a b hlen, h1, h2, jsSqrtQ,
      rat_sqrt_zero, not_lt.2 hA, JsNum.mul, JsNum.div]

/-- Witness for C9 at `a = [0,0]`, `b = [3,4]`. -/
theorem C9_zero_vector_nan_witness :
    cosineSimilarity [0, 0] [3, 4] = .ok .nan :=
  C9_zero_vector_nan [0, 0] [3, 4] rfl (Or.inl (by decide))

/-- C5: for every query, ranking an empty results list returns `[]`
immediately with an empty effect trace — no embed, batch-embed,
cache-get or cache-set occurs. -/
theorem C5_empty_results (query : String) (useCache : Bool) (env : Env) :
    rankSearchResults query [] useCache env = (.ok [], []) := rfl

/-- C4 (amended): when the `pagemap` block is present, `extractTextContent`
never fails and returns `"Title: {title} Description: {description}"`,
where the description is the *first* metatag entry's `og:description`
truncated to 800 characters when that entry exists and the field is
present and non-empty, and the short snippet verbatim otherwise. -/
theorem C4_extract_with_pagemap (r : SearchResult) (pm : Pagemap)
    (h : r.pagemap = some pm) :
    extractTextContent r =
      .ok ("Title: " ++ r.title ++ " Description: "
            ++ firstMetatagDescription pm r.snippet) := by
  rcases r with ⟨title, snippet, pg⟩
  simp only at h
  subst h
  rcases pm with ⟨mt⟩
  rcases mt with _ | mts
  · rfl
  · rcases mts with _ | ⟨⟨og⟩, rest⟩
    · rfl
    · rcases og with _ | s
      · rfl
      · simp [extractTextContent, firstMetatagDescription]

/-- Witness for C4 (amended) at a result with a present, empty
`pagemap`. -/
theorem C4_extract_with_pagemap_witness :
    extractTextContent (mkPlain "r1") =
      .ok ("Title: " ++ (mkPlain "r1").title ++ " Description: "
            ++ firstMetatagDescription { metatags := none } (mkPlain "r1").snippet) :=
  C4_extract_with_pagemap (mkPlain "r1") { metatags := none } rfl

/-- C4 counterexample to the claim as stated: (1) a well-formed result
without a `pagemap` block makes `extractTextContent` throw a `TypeError`
(it is not total); (2) a result whose metadata *contains an entry* with a
rich description (the second entry) still gets the snippet — only the
first entry is consulted; (3) an empty-string `og:description` is falsy
and also falls back to the snippet. -/
theorem C4_extract_counterexample :
    extractTextContent rNoPagemap = .error .typeError ∧
    extractTextContent rSecondRich = .ok "Title: t Description: s" ∧
    extractTextContent rEmptyDesc = .ok "Title: t Description: s" := by
  refine ⟨rfl, by decide, by decide⟩

/-- C8 (amended): the single-text embed rejects empty-after-trim text
with `InvalidInputError` before any cache or network interaction (empty
effect trace); the batched embed performs no input validation at all —
it always issues the one network call with exactly the given texts and
its outcome is entirely determined by the provider response. -/
theorem C8_empty_text_validation :
    (∀ (text : String) (useCache : Bool) (env : Env), isBlank text = true →
        getEmbedding text useCache env = (.error .emptyText, [])) ∧
    (∀ (texts : List String) (env : Env),
        getBatchEmbeddingsFromAPI texts env =
          ((env.apiBatch texts).bind extractBatch, [.apiEmbedBatch texts])) := by
  constructor
  · intro text useCache env h
    simp [getEmbedding, h]
  · intro texts env
    cases h : env.apiBatch texts <;>
      simp [getBatchEmbeddingsFromAPI, apiCreateBatch, h, Except.bind]

/-- Witness for C8 (amended): whitespace text rejected by the single
embed with no effects; a batch call runs with no validation. -/
theorem C8_empty_text_validation_witness :
    getEmbedding " " true envNull = (.error .emptyText, []) ∧
    getBatchEmbeddingsFromAPI ["x"] envNull =
      ((envNull.apiBatch ["x"]).bind extractBatch, [.apiEmbedBatch ["x"]]) :=
  ⟨C8_empty_text_validation.1 " " true envNull (by decide),
   C8_empty_text_validation.2 ["x"] envNull⟩

/-- C8 counterexample to the claim as stated: a batch containing an
empty-after-trim text does *not* fail with `InvalidInputError` — the
network call is attempted with the empty text included (and here
succeeds), both through the raw batched call and through the batch embed
operation with caching disabled. -/
theorem C8_batch_counterexample :
    getBatchEmbeddingsFromAPI [""] envNull = (.ok [[1]], [.apiEmbedBatch [""]]) ∧
    getEmbeddingsBatch [""] false envNull = (.ok [some [1]], [.apiEmbedBatch [""]]) := by
  refine ⟨by decide, by decide⟩

/-- C2 (amended): whenever `rankSearchResults` succeeds it returns exactly
one `RankedResult` per input — a permutation of the input results, each a
copy of a distinct input augmented with a similarity — and, *provided no
similarity is `NaN`*, the list is sorted by non-increasing similarity.
(With a `NaN` similarity the JS comparator is inconsistent and the order
is not guaranteed; see the counterexample.) -/
theorem C2_rank_shape (query : String) (results : List SearchResult)
    (useCache : Bool) (env : Env) (l : List RankedResult) (tr : List Eff)
    (h : rankSearchResults query results useCache env = (.ok l, tr)) :
    l.length = results.length ∧
    (∃ scored, List.Perm l scored ∧
        scored.map (fun x => x.toSearchResult) = results) ∧
    ((∀ x ∈ l, x.similarity ≠ JsNum.nan) → SortedSim l) := by
  by_cases hres : results.length = 0
  · have hnil : results = [] := List.length_eq_zero.1 hres
    subst hnil
    rw [rankSearchResults] at h
    simp [M.pure'] at h
    obtain ⟨h1, _⟩ := h
    subst h1
    refine ⟨rfl, ⟨[], List.Perm.refl _, rfl⟩, fun _ => List.Pairwise.nil⟩
  · rw [rankSearchResults, if_neg hres] at h
    obtain ⟨qe, t1, t2, hq, h2, ht⟩ := M.bind_ok h
    obtain ⟨texts, t3, t4, hx, h3, ht2⟩ := M.bind_ok h2
    obtain ⟨embs, t5, t6, hb, h4, ht3⟩ := M.bind_ok h3
    obtain ⟨ranked, t7, t8, hsc, h5, ht4⟩ := M.bind_ok h4
    have hl : l = sortV8 ranked := by
      have h6 : ((.ok (sortV8 ranked) : Except JsError (List RankedResult)), ([] : List Eff))
          = (.ok l, t8) := h5
      simp only [Prod.mk.injEq, Except.ok.injEq] at h6
      exact h6.1.symm
    have hscore : scoreResults qe results embs = .ok ranked := by
      have h7 : ((scoreResults qe results embs, ([] : List Eff)) :
          Except JsError (List RankedResult) × List Eff) = (.ok ranked, t7) := hsc
      simp only [Prod.mk.injEq] at h7
      exact h7.1
    refine ⟨?_, ⟨ranked, ?_, ?_⟩, ?_⟩
    · rw [hl, sortV8_length]
      exact scoreList_length qe embs results 0 ranked hscore
    · rw [hl]; exact sortV8_perm ranked
    · exact scoreList_strip qe embs results 0 ranked hscore
    · intro hnn
      have hAll : AllNum ranked := by
        intro x hx
        have hxl : x ∈ l := by rw [hl]; exact ((sortV8_perm ranked).mem_iff).2 hx
        rcases scoreList_numOrNan qe embs results 0 ranked hscore x hx with hnan | hq
        · exact absurd hnan (hnn x hxl)
        · exact hq
      rw [hl]
      exact sortV8_sorted ranked hAll

/-- Witness for C2 (amended) at a concrete successful two-result run. -/
theorem C2_rank_shape_witness :
    rankedPairOut.length = 2 ∧
    (∃ scored, List.Perm rankedPairOut scored ∧
        scored.map (fun x => x.toSearchResult) = [mkPlain "a", mkPlain "b"]) ∧
    ((∀ x ∈ rankedPairOut, x.similarity ≠ JsNum.nan) → SortedSim rankedPairOut) := by
  simpa using C2_rank_shape "q" [mkPlain "a", mkPlain "b"] true envNull rankedPairOut _
    rankPair_run

/-- C2 counterexample to the claim as stated: a successful run (no step
fails) whose output is *not* sorted by non-increasing similarity — the
`NaN` similarity of the zero vector makes the comparator inconsistent,
and the result places similarity `3/5` before `24/25`. -/
theorem C2_rank_unsorted_counterexample :
    (rankSearchResults "q" [mkPlain "r1", mkPlain "r2", mkPlain "r3", mkPlain "r4"]
        false envMix).1 = .ok rankedMixOut ∧
    ¬ SortedSim rankedMixOut := by
  constructor
  · rw [rankMix_run]
  · intro hs
    have h2 := (List.pairwise_cons.1 (List.pairwise_cons.1 hs).2).1
    have h3 := h2 { toSearchResult := mkPlain "r4", similarity := .num (24 / 25) }
      (by simp [rankedMixOut])
    simp [simGeB, JsNum.leB, rankedMixOut] at h3
    norm_num at h3

/-- C3 (amended): command-level cache failures are fully absorbed — an
environment in which every failing read is replaced by a plain miss is
indistinguishable to the whole ranking operation (read failure ≡ miss),
and a cache write attempt on a connected client never raises, whatever
the command outcome (the catch swallows it).  However, when the Redis
client is *not connected*, the `getRedisClient()` error — thrown outside
the `try` blocks — does escape the ranking operation: see the
counterexample. -/
theorem C3_cache_failures_absorbed :
    (∀ (query : String) (results : List SearchResult) (useCache : Bool) (env : Env),
        rankSearchResults query results useCache env.degrade
          = rankSearchResults query results useCache env) ∧
    (∀ (env : Env) (text : String) (v : Option Vec), env.connected = true →
        setCachedEmbedding text v env
          = (.ok (), [.cacheSet (generateEmbeddingCacheKey text) v])) :=
  ⟨degrade_rankSearchResults, fun _ text v h => setCachedEmbedding_run text v h⟩

/-- Witness for C3 (amended): a concrete all-reads-fail environment is
indistinguishable from its all-miss degradation, and a concrete write
returns `ok`. -/
theorem C3_cache_failures_absorbed_witness :
    rankSearchResults "q" [mkPlain "a"] true envErr.degrade
      = rankSearchResults "q" [mkPlain "a"] true envErr ∧
    setCachedEmbedding "q" (some [1]) envNull
      = (.ok (), [.cacheSet (generateEmbeddingCacheKey "q") (some [1])]) :=
  ⟨C3_cache_failures_absorbed.1 "q" [mkPlain "a"] true envErr,
   C3_cache_failures_absorbed.2 envNull "q" (some [1]) rfl⟩

/-- C3 counterexample to the claim as stated: with a not-connected Redis
client the ranking operation fails with the cache error
(`'Redis not connected. Call initRedis() first.'`) — cache unavailability
*does* propagate to the caller, because `getRedisClient()` is called
outside the `try`/`catch` blocks. -/
theorem C3_not_connected_counterexample :
    rankSearchResults "q" [mkPlain "a"] true envDisc
      = (.error .notConnected, []) := by
  decide

/-- C7 (amended): when the ranking operation fails, the error surfaced to
the caller is exactly the error of the failing inner step — the query
embedding, the text extraction, the batch embedding, or the similarity
scoring — rethrown unchanged (the source has no `RankingError` wrapper
type; its catch block logs and rethrows the original error).  No list is
returned on failure: the result is the error alone. -/
theorem C7_error_passthrough (query : String) (results : List SearchResult)
    (useCache : Bool) (env : Env) (e : JsError) (tr : List Eff)
    (h : rankSearchResults query results useCache env = (.error e, tr)) :
    (∃ t1, getEmbedding query useCache env = (.error e, t1)) ∨
    (∃ qe t1, getEmbedding query useCache env = (.ok qe, t1) ∧
        extractAllTexts results = .error e) ∨
    (∃ qe t1 texts t2, getEmbedding query useCache env = (.ok qe, t1) ∧
        extractAllTexts results = .ok texts ∧
        getEmbeddingsBatch texts useCache env = (.error e, t2)) ∨
    (∃ qe t1 texts t2 embs, getEmbedding query useCache env = (.ok qe, t1) ∧
        extractAllTexts results = .ok texts ∧
        getEmbeddingsBatch texts useCache env = (.ok embs, t2) ∧
        scoreResults qe results embs = .error e) := by
  by_cases h0 : results.length = 0
  · rw [rankSearchResults] at h
    simp [h0, M.pure'] at h
  · rw [rankSearchResults, if_neg h0] at h
    rcases M.bind_error h with ⟨t1, hq⟩ | ⟨qe, t1, t2, hq, h2, _⟩
    · exact Or.inl ⟨t1, hq⟩
    · rcases M.bind_error h2 with ⟨t3, hx⟩ | ⟨texts, t3, t4, hx, h3, _⟩
      · have hx2 : extractAllTexts results = .error e := by
          rw [M.liftE_run] at hx
          have := congrArg Prod.fst hx
          simpa using this
        exact Or.inr (Or.inl ⟨qe, t1, hq, hx2⟩)
      · have hx2 : extractAllTexts results = .ok texts := by
          rw [M.liftE_run] at hx
          have := congrArg Prod.fst hx
          simpa using this
        rcases M.bind_error h3 with ⟨t5, hb⟩ | ⟨embs, t5, t6, hb, h4, _⟩
        · exact Or.inr (Or.inr (Or.inl ⟨qe, t1, texts, t5, hq, hx2, hb⟩))
        · rcases M.bind_error h4 with ⟨t7, hs⟩ | ⟨ranked, t7, t8, hs, h5, _⟩
          · have hs2 : scoreResults qe results embs = .error e := by
              rw [M.liftE_run] at hs
              have := congrArg Prod.fst hs
              simpa using this
            exact Or.inr (Or.inr (Or.inr ⟨qe, t1, texts, t5, embs, hq, hx2, hb, hs2⟩))
          · rw [M.pure_run] at h5
            simp at h5

/-- Witness for C7 (amended) at a concrete failing provider. -/
theorem C7_error_passthrough_witness :
    (∃ t1, getEmbedding "q" true envFail = (.error (.apiFailure "boom"), t1)) ∨
    (∃ qe t1, getEmbedding "q" true envFail = (.ok qe, t1) ∧
        extractAllTexts [mkPlain "a"] = .error (.apiFailure "boom")) ∨
    (∃ qe t1 texts t2, getEmbedding "q" true envFail = (.ok qe, t1) ∧
        extractAllTexts [mkPlain "a"] = .ok texts ∧
        getEmbeddingsBatch texts true envFail = (.error (.apiFailure "boom"), t2)) ∨
    (∃ qe t1 texts t2 embs, getEmbedding "q" true envFail = (.ok qe, t1) ∧
        extractAllTexts [mkPlain "a"] = .ok texts ∧
        getEmbeddingsBatch texts true envFail = (.ok embs, t2) ∧
        scoreResults qe [mkPlain "a"] embs = .error (.apiFailure "boom")) :=
  C7_error_passthrough "q" [mkPlain "a"] true envFail (.apiFailure "boom")
    [.cacheGet (generateEmbeddingCacheKey "q"), .apiEmbed "q"] (by decide)

/-- C7 counterexample to the claim as stated: the error surfaced by the
ranking operation is the provider's original rejection itself — the very
same `JsError` value, not a distinct `RankingError` wrapping it (no such
wrapper type exists anywhere in the source). -/
theorem C7_no_wrapper_counterexample :
    rankSearchResults "q" [mkPlain "a"] true envFail
      = (.error (.apiFailure "boom"),
         [.cacheGet (generateEmbeddingCacheKey "q"), .apiEmbed "q"]) ∧
    envFail.apiSingle "q" = .error (.apiFailure "boom") :=
  ⟨by decide, rfl⟩

/-- The two verbatim-identical text extractors agree. -/
theorem extractAllTexts_eq_B : ∀ rs : List SearchResult,
    extractAllTexts rs = extractAllTextsB rs := by
  intro rs
  induction rs with
  | nil => rfl
  | cons r rest ih =>
      have hB : extractTextContentB r = extractTextContent r := rfl
      rw [extractAllTexts, extractAllTextsB, hB, ih]

theorem scoreList_eq_B (qe : Vec) (vs : List Vec) :
    ∀ (rs : List SearchResult) (i : ℕ),
      scoreList qe (vs.map some) i rs = scoreListB qe vs i rs := by
  intro rs
  induction rs with
  | nil => intro i; rfl
  | cons r rest ih =>
      intro i
      rw [scoreList, scoreListB, ih (i + 1)]
      have hg : (vs.map some).getD i none = vs.get? i := by
        rcases hv : vs.get? i with _ | v <;>
          · rw [List.get?_eq_getElem?] at hv
            simp [List.getD, List.getElem?_map, hv]
      rw [hg]
      rcases hv : vs.get? i with _ | v
      · rfl
      · dsimp only
        have hc : cosineSimilarity qe v = cosineSimilarityB qe v := rfl
        rw [hc]

theorem scoreResults_eq_B (qe : Vec) (rs : List SearchResult) (vs : List Vec) :
    scoreResults qe rs (vs.map some) = scoreResultsB qe rs vs :=
  scoreList_eq_B qe vs rs 0

theorem getEmbeddingsBatchB_eq (ts : List String) (env : Env) :
    getEmbeddingsBatchB ts env = getBatchEmbeddingsFromAPI ts env := rfl

theorem getEmbedding_false_eq_B (env : Env) (q : String) (h : isBlank q = false) :
    getEmbedding q false env = getEmbeddingB q env := by
  rw [getEmbedding, h]
  simp only [Bool.false_eq_true, if_false]
  rcases ha : env.apiSingle q with e | ro
  · simp [M.bind_run, apiCreateSingle_run, ha, getEmbeddingB]
  · rcases ro with _ | v <;>
      simp [M.bind_run, apiCreateSingle_run, ha, getEmbeddingB]

/-- C10: with caching disabled, the Redis-backed engine (variant A) and
the in-memory-cache engine (variant B) produce identical output — result
and effect trace — for every query that is non-blank after trimming
(variant A rejects blank queries before calling the provider; variant B
does not validate), whenever both run against the same environment, i.e.
the provider returns the same vectors for the same inputs. -/
theorem C10_variants_agree (query : String) (results : List SearchResult)
    (env : Env) (h : isBlank query = false) :
    rankSearchResults query results false env
      = rankSearchResultsB query results false [] env := by
  by_cases h0 : results.length = 0
  · rw [rankSearchResults, rankSearchResultsB, if_pos h0, if_pos h0]
  · rw [rankSearchResults, rankSearchResultsB, if_neg h0, if_neg h0]
    simp only [M.bind_run, Bool.false_eq_true, if_false]
    rw [getEmbedding_false_eq_B env query h]
    rcases hq : getEmbeddingB query env with ⟨rq, tq⟩
    cases rq with
    | error e => rfl
    | ok qe =>
        simp only [M.liftE_run]
        rw [extractAllTexts_eq_B]
        rcases hx : extractAllTextsB results with e | texts
        · rfl
        · simp only [getEmbeddingsBatch, Bool.not_false, if_pos, M.bind_run,
            M.pure_run, getEmbeddingsBatchB_eq]
          rcases hb : getBatchEmbeddingsFromAPI texts env with ⟨rb, tb⟩
          cases rb with
          | error e => rfl
          | ok vs =>
              simp only [M.liftE_run]
              rw [scoreResults_eq_B]
              rcases hs : scoreResultsB qe results vs with e | ranked <;> simp

/-- Witness for C10 at a concrete non-blank query. -/
theorem C10_variants_agree_witness :
    rankSearchResults "q" [mkPlain "a"] false envNull
      = rankSearchResultsB "q" [mkPlain "a"] false [] envNull :=
  C10_variants_agree "q" [mkPlain "a"] envNull (by decide)

/-- C1: for every non-empty batch of candidate texts with caching enabled,
on an execution where the cache is connected, at least one text misses,
and the provider and extraction steps succeed, `getEmbeddingsBatch`
checks the cache for every text (one `cacheGet` per text, in order),
issues exactly one batched provider call containing only the missed
texts, writes each fresh vector back to the cache, and splices the fresh
vectors into their original index positions: the returned array has the
same length as the input, every cache hit keeps its vector at its
position, and the i-th missed position receives the i-th fresh vector. -/
theorem C1_batch_reconciliation {env : Env} {texts : List String}
    {data : List (Option Vec)} {fresh : List Vec}
    (hc : env.connected = true)
    (hm : missedPairs env texts ≠ [])
    (hb : env.apiBatch ((missedPairs env texts).map Prod.snd) = .ok data)
    (hx : extractBatch data = .ok fresh) :
    getEmbeddingsBatch texts true env
      = (.ok (spliceRef (cacheColumn env texts) fresh),
         (texts.map fun t => Eff.cacheGet (generateEmbeddingCacheKey t))
           ++ Eff.apiEmbedBatch ((missedPairs env texts).map Prod.snd)
             :: ((missedPairs env texts).map Prod.snd).enum.map (fun p =>
                  Eff.cacheSet (generateEmbeddingCacheKey p.2) (fresh.get? p.1)))
    ∧ (getEmbeddingsBatch texts true env).2.filter Eff.isBatchCall
        = [Eff.apiEmbedBatch ((missedPairs env texts).map Prod.snd)]
    ∧ (spliceRef (cacheColumn env texts) fresh).length = texts.length
    ∧ (∀ i v, (cacheColumn env texts).get? i = some (some v) →
        (spliceRef (cacheColumn env texts) fresh).get? i = some (some v))
    ∧ ∀ i, (cacheColumn env texts).get? i = some none →
        (spliceRef (cacheColumn env texts) fresh).get? i
          = some (fresh.get?
              (((cacheColumn env texts).take i).countP fun e => e.isNone)) := by
  have hrun := getEmbeddingsBatch_run_misses hc hm hb hx
  refine ⟨hrun, ?_, ?_, fun i v h => spliceRef_get_hit _ fresh i v h,
    fun i h => spliceRef_get_miss _ fresh i h⟩
  · rw [hrun]
    simp [List.filter_append, List.filter_cons, Eff.isBatchCall,
      filter_batch_map_get, filter_batch_map_set]
    intro a x s _ he
    subst he
    rfl
  · rw [spliceRef_length, cacheColumn, List.length_map]

/-- Witness for C1 at the spec's reconciliation example: five texts, three
cache hits (`t1`, `t2`, `t4`), two misses (`t3`, `t5`); exactly one
batched call is made and it carries only the two missed texts. -/
theorem C1_batch_reconciliation_witness :
    envFive.connected = true
    ∧ missedPairs envFive ["t1", "t2", "t3", "t4", "t5"] ≠ []
    ∧ (getEmbeddingsBatch ["t1", "t2", "t3", "t4", "t5"] true envFive).2.filter
        Eff.isBatchCall = [Eff.apiEmbedBatch ["t3", "t5"]] :=
  ⟨by decide, by decide, by
    have h := (@C1_batch_reconciliation envFive ["t1", "t2", "t3", "t4", "t5"]
        [some [9, 9], some [9, 9]] [[9, 9], [9, 9]]
        (by decide) (by decide) (by decide) (by decide)).2.1
    exact h.trans (by decide)⟩
